import Mathlib

/-!
Verification of the MarkLite PDF export engine (`exportToPDF` and its helpers
in `src/utils/exportUtils.ts`) against its natural-language specification.

The engine is embedded shallowly:
* the DOM tree produced by the external `DOMParser` is the inductive `HNode`;
  `textContent`, `querySelector`-style descendant search and
  `closest('thead')`-style ancestor tests are modelled over that tree
  (ancestors above the element handed to a helper are not represented,
  matching the data actually available to the table-extraction code);
* `parseHTMLForPDF` is translated function by function;
* the jsPDF drawing surface is a list of pages, each an ordered list of
  `DrawCmd`; `pdf.text`/`rect`/`roundedRect`/`line` append to the current
  page and `addPage` (inside `checkPageBreak`) closes it;
* jsPDF text measurement (`splitTextToSize`) is an external collaborator and
  is passed in as a function `wrap : String → ℚ → ℚ → List String`
  (text, max width, font size);
* `Record` lookups with a key outside the record's closed key set yield
  JavaScript `undefined`; dereferencing a field of `undefined` throws.  This
  is modelled with `Option` results and an `Except` outcome: the theme table
  is dereferenced once up front, the size table only inside the per-block
  cases that read it;
* page geometry uses the nominal A4 size 210 × 297 mm (jsPDF's internal A4
  differs from this by less than 0.002 mm, which none of the break decisions
  proved below are close to).

Numbers are modelled as exact rationals.  JavaScript string trimming,
splitting and replacement are implemented by structural recursion on
character lists (so concrete runs compute inside the kernel); they agree
with the JavaScript operations on the inputs involved.
-/

namespace MarkLite

set_option maxRecDepth 100000

attribute [local semireducible] Rat.add Rat.sub Rat.mul Rat.inv

/-- A DOM node as produced by the external `DOMParser`: an element with a
(lower-case) tag and children, or a text node. -/
inductive HNode where
  | element (tag : String) (children : List HNode)
  | text (s : String)

namespace HNode

/-- `el.tagName.toLowerCase() === t` for an element; text nodes have no tag. -/
def isTag (t : String) : HNode → Bool
  | element tag _ => tag == t
  | text _ => false

mutual
/-- `node.textContent`: concatenation of all descendant text, in order. -/
def textContent : HNode → String
  | .text s => s
  | .element _ cs => textContentList cs

/-- `textContent` concatenated over a list of nodes. -/
def textContentList : List HNode → String
  | [] => ""
  | c :: cs => textContent c ++ textContentList cs
end

mutual
/-- Descendant elements (document order, self excluded) whose tag is in
`tags`, each paired with whether a `thead` element lies strictly between it
and the search root; `under` is the flag inherited from above the list.
This implements `querySelectorAll` restricted to tag selectors together with
the `closest('thead')` test used by the table code. -/
def collectDesc (tags : List String) (under : Bool) : HNode → List (HNode × Bool)
  | .text _ => []
  | .element tag cs => collectDescList tags (under || tag == "thead") cs

/-- `collectDesc` over a list of sibling nodes. -/
def collectDescList (tags : List String) (under : Bool) : List HNode → List (HNode × Bool)
  | [] => []
  | c :: cs =>
      (match c with
       | .element tag _ =>
          if tags.contains tag then [(c, under)] else []
       | .text _ => [])
      ++ collectDesc tags under c
      ++ collectDescList tags under cs
end

end HNode

/-- JavaScript `a || b` for strings: the empty string is falsy. -/
def jsOr (a b : String) : String := if a = "" then b else a

/-- JavaScript `s.trim()` (leading and trailing whitespace removed),
implemented by structural recursion on the character list so that it
computes inside the kernel.  Agrees with `String.trim` on the inputs
involved here. -/
def jsTrim (s : String) : String :=
  ⟨((s.data.dropWhile Char.isWhitespace).reverse.dropWhile Char.isWhitespace).reverse⟩

/-- Split a character list at every occurrence of `c` (JavaScript
`split(c)`: no occurrence gives one group, a trailing separator a trailing
empty group). -/
def splitCharAux (c : Char) : List Char → List (List Char)
  | [] => [[]]
  | x :: xs =>
      match splitCharAux c xs with
      | [] => [[]]
      | g :: gs => if x == c then [] :: g :: gs else (x :: g) :: gs

/-- JavaScript `s.split('\n')`. -/
def jsSplitNewline (s : String) : List String :=
  (splitCharAux '\n' s.data).map (fun l => ⟨l⟩)

/-- JavaScript `s.replace('#', '')`: remove the first `#`, if any. -/
def removeFirstHash : List Char → List Char
  | [] => []
  | x :: xs => if x == '#' then xs else x :: removeFirstHash xs

/-- One flattened block, `interface PDFElement` of the source: a closed tagged
variant (`type` field) with the fields each case uses. -/
inductive PDFElement where
  | h1 (text : String)
  | h2 (text : String)
  | h3 (text : String)
  | p (text : String)
  | li (text : String) (indent : Nat) (ordered : Bool) (index : Nat)
  | pre (text : String)
  | blockquote (text : String)
  | hr
  | table (rows : List (List String)) (hasHeader : Bool)
deriving Repr, DecidableEq

/-- Cell texts of one table row: `tr.querySelectorAll('th, td')` with
`cell.textContent?.trim() || ''` applied to each cell. -/
def cellTexts (tr : HNode) : List String :=
  (HNode.collectDesc ["th", "td"] false tr).map (fun p => jsTrim (HNode.textContent p.1))

/-- The `case 'table'` body of `parseHTMLForPDF`, on the table element's
children: header rows from the first `thead` descendant (all of them, empty
or not), then every `tr` of the first `tbody` descendant (or of the table
itself when there is none) that has no `thead` ancestor, dropping body rows
with zero cells.  Returns the extracted rows and the `hasHeader` flag. -/
def tableExtract (cs : List HNode) : List (List String) × Bool :=
  let theadQ := ((HNode.collectDescList ["thead"] false cs).map Prod.fst).head?
  let headerRows := match theadQ with
    | some th => ((HNode.collectDesc ["tr"] false th).map Prod.fst).map cellTexts
    | none => []
  let hasHeader := theadQ.isSome
  let bodyTrs := match (HNode.collectDescList ["tbody"] false cs).head? with
    | some (tb, fl) => HNode.collectDesc ["tr"] fl tb
    | none => HNode.collectDescList ["tr"] false cs
  let bodyRows := ((bodyTrs.filter (fun p => !(hasHeader && p.2))).map
      (fun p => cellTexts p.1)).filter (fun cells => cells.length > 0)
  (headerRows ++ bodyRows, hasHeader)

mutual
/-- `processNode(node, listIndent, orderedList, listIndex)`: emits the blocks
for one DOM node, in document order. -/
def processNode (listIndent : Nat) (orderedList : Bool) (listIndex : Nat) :
    HNode → List PDFElement
  | .text s =>
      let t := jsTrim s
      if t ≠ "" then [.p t] else []
  | .element tag cs =>
      match tag with
      | "h1" => [.h1 (HNode.textContentList cs)]
      | "h2" => [.h2 (HNode.textContentList cs)]
      | "h3" | "h4" | "h5" | "h6" => [.h3 (HNode.textContentList cs)]
      | "p" => [.p (HNode.textContentList cs)]
      | "pre" =>
          let codeQ := ((HNode.collectDescList ["code"] false cs).map Prod.fst).head?
          let fromCode := match codeQ with
            | some c => HNode.textContent c
            | none => ""
          [.pre (jsOr fromCode (HNode.textContentList cs))]
      | "blockquote" => [.blockquote (HNode.textContentList cs)]
      | "hr" => [.hr]
      | "table" =>
          let rh := tableExtract cs
          if rh.1.length > 0 then [.table rh.1 rh.2] else []
      | "ul" => processListItems listIndent false 0 cs
      | "ol" => processListItems listIndent true 0 cs
      | "li" =>
          .li (HNode.textContentList cs) listIndent orderedList listIndex
            :: processNestedLists listIndent cs
      | _ => processChildren listIndent orderedList listIndex cs

/-- The `el.childNodes.forEach(child => processNode(child, ...))` loop of the
default (transparent container) case. -/
def processChildren (listIndent : Nat) (orderedList : Bool) (listIndex : Nat) :
    List HNode → List PDFElement
  | [] => []
  | c :: cs =>
      processNode listIndent orderedList listIndex c
        ++ processChildren listIndent orderedList listIndex cs

/-- The `ul`/`ol` child loop: a per-list counter, incremented before each
direct `li` child is processed; non-`li` children are skipped. -/
def processListItems (listIndent : Nat) (ordered : Bool) (counter : Nat) :
    List HNode → List PDFElement
  | [] => []
  | c :: cs =>
      if HNode.isTag "li" c then
        processNode (listIndent + 1) ordered (counter + 1) c
          ++ processListItems listIndent ordered (counter + 1) cs
      else processListItems listIndent ordered counter cs

/-- The nested-list loop at the end of the `li` case: direct `ul`/`ol`
children are flattened right after the item, with a fresh ordinal state. -/
def processNestedLists (listIndent : Nat) : List HNode → List PDFElement
  | [] => []
  | c :: cs =>
      (if HNode.isTag "ul" c then processNode listIndent false 0 c
       else if HNode.isTag "ol" c then processNode listIndent true 0 c
       else [])
        ++ processNestedLists listIndent cs
end

/-- `parseHTMLForPDF`: the flattener, applied to the children of the
container produced by the external `DOMParser` (default arguments
`listIndent = 0`, `orderedList = false`, `listIndex = 0`). -/
def parseHTMLForPDF (container : List HNode) : List PDFElement :=
  processChildren 0 false 0 container

/-! ### Style resolver: `pdfFontSizes`, `themeColors`, `hexToRgb` -/

/-- `pdfFontSizes[k]` record: per-role font sizes and line-height multiplier. -/
structure PdfSizes where
  base : ℚ
  h1 : ℚ
  h2 : ℚ
  h3 : ℚ
  code : ℚ
  lineHeight : ℚ
deriving Repr, DecidableEq

/-- The `pdfFontSizes` record; indexing with a key outside the closed
`FontSize` set gives JavaScript `undefined`, modelled as `none`.
Field order: base, h1, h2, h3, code, lineHeight. -/
def pdfFontSizes : String → Option PdfSizes
  | "small" => some ⟨10, 20, 16, 12, 9, 7 / 5⟩
  | "medium" => some ⟨11, 22, 18, 14, 10, 3 / 2⟩
  | "large" => some ⟨12, 24, 20, 16, 11, 8 / 5⟩
  | _ => none

/-- One theme's color table (hex strings).  The three `syntaxH*` fields of
the source are called `synH1`..`synH3` here; only the fields `exportToPDF`
reads are modelled. -/
structure ThemeColors where
  textPrimary : String
  textSecondary : String
  border : String
  synH1 : String
  synH2 : String
  synH3 : String
deriving Repr, DecidableEq

/-- The `themeColors` record restricted to the fields `exportToPDF` reads;
a key outside the closed 4-value `Theme` set gives `undefined` (`none`).
Field order: textPrimary, textSecondary, border, syntaxH1, syntaxH2,
syntaxH3. -/
def themeColors : String → Option ThemeColors
  | "dark" => some ⟨"#ffffff", "#737373", "#262626", "#ffffff", "#e5e5e5", "#d4d4d4"⟩
  | "light" => some ⟨"#171717", "#525252", "#e5e5e5", "#171717", "#262626", "#404040"⟩
  | "paper" => some ⟨"#3d3d3d", "#6b6352", "#d4cfc2", "#3d3029", "#5c4033", "#6b5344"⟩
  | "github" => some ⟨"#1f2328", "#656d76", "#d0d7de", "#1f2328", "#1f2328", "#1f2328"⟩
  | _ => none

/-- An RGB triple (0–255 each). -/
structure RGB where
  r : Nat
  g : Nat
  b : Nat
deriving Repr, DecidableEq

/-- Value of one hex digit, as `parseInt(·, 16)` reads it. -/
def hexDigitVal (c : Char) : Nat :=
  if c.isDigit then c.toNat - 48
  else if 'a' ≤ c && c ≤ 'f' then c.toNat - 87
  else if 'A' ≤ c && c ≤ 'F' then c.toNat - 55
  else 0

/-- `parseInt(clean.substring(i, i+2), 16)` for the two hex digits at `i`. -/
def hexPair (l : List Char) (i : Nat) : Nat :=
  16 * hexDigitVal (l.getD i '0') + hexDigitVal (l.getD (i + 1) '0')

/-- `hexToRgb`: strip `#`, parse the three two-digit components. -/
def hexToRgb (hex : String) : RGB :=
  let clean := removeFirstHash hex.data
  ⟨hexPair clean 0, hexPair clean 2, hexPair clean 4⟩

/-! ### Pagination engine -/

/-- A4 page width in mm as used by the engine. -/
def pageWidth : ℚ := 210

/-- A4 page height in mm as used by the engine. -/
def pageHeight : ℚ := 297

/-- `const margin = 20`. -/
def margin : ℚ := 20

/-- `const footerHeight = 15`. -/
def footerHeight : ℚ := 15

/-- `const maxWidth = pageWidth - margin * 2`. -/
def maxWidth : ℚ := pageWidth - margin * 2

/-- One absolutely positioned draw primitive, page-local, paint-ordered.
A `text` command is one `pdf.text(...)` call and carries all the lines that
call paints (a single-string call carries a singleton), together with the
font size, family, style and color in effect at the call. -/
inductive DrawCmd where
  | text (lines : List String) (x y : ℚ) (size : ℚ) (font : String) (style : String)
      (color : RGB)
  | fillRect (x y w h : ℚ) (color : RGB)
  | fillRoundedRect (x y w h rx ry : ℚ) (color : RGB)
  | strokeRect (x y w h : ℚ) (color : RGB) (lineWidth : ℚ)
  | line (x1 y1 x2 y2 : ℚ) (color : RGB) (lineWidth : ℚ)
deriving Repr, DecidableEq

/-- The six RGB values `exportToPDF` derives from the theme up front. -/
structure DerivedColors where
  textRgb : RGB
  textSecondaryRgb : RGB
  borderRgb : RGB
  h1Rgb : RGB
  h2Rgb : RGB
  h3Rgb : RGB
deriving Repr, DecidableEq

/-- The engine's cursor and page accumulator: completed pages (in order),
the current page's commands, and the vertical offset `y`.  jsPDF starts
with one (current) page; `addPage` closes the current page. -/
structure LayoutState where
  done : List (List DrawCmd)
  cur : List DrawCmd
  y : ℚ
deriving Repr, DecidableEq

/-- The state a fresh `jsPDF` document starts in (`let y = margin`). -/
def initState : LayoutState := ⟨[], [], margin⟩

/-- `checkPageBreak(height)`: if the height does not fit above the footer
band, `pdf.addPage()` and reset `y` to the top margin.  (The boolean the
source returns is ignored by every caller.) -/
def checkPageBreak (s : LayoutState) (height : ℚ) : LayoutState :=
  if s.y + height > pageHeight - margin - footerHeight then
    ⟨s.done ++ [s.cur], [], margin⟩
  else s

/-- Append one draw command to the current page. -/
def emit (s : LayoutState) (c : DrawCmd) : LayoutState :=
  { s with cur := s.cur ++ [c] }

/-- Text measurement (`wrapText`, backed by jsPDF `splitTextToSize`):
text, maximum width, font size ↦ wrapped lines.  External collaborator,
passed in as a parameter. -/
abbrev WrapFn := String → ℚ → ℚ → List String

/-- The per-line loop of the `case 'p'` body: for each wrapped line,
`checkPageBreak(lineH)`, place the line, advance `y` by `lineH`. -/
def placeParaLines (sizes : PdfSizes) (colors : DerivedColors) (lineH : ℚ) :
    LayoutState → List String → LayoutState
  | s, [] => s
  | s, lineStr :: rest =>
      let s1 := checkPageBreak s lineH
      let s2 := emit s1 (.text [lineStr] margin s1.y sizes.base "helvetica" "normal"
        colors.textRgb)
      placeParaLines sizes colors lineH { s2 with y := s2.y + lineH } rest

/-- The per-source-line loop of the tall-code-block branch of `case 'pre'`:
for each source line, `checkPageBreak(lineH + 4)`, a fresh background
rectangle one line high, the (re-wrapped) line, advance `y`. -/
def placeCodeSplit (wrap : WrapFn) (sizes : PdfSizes) (lineH : ℚ) :
    LayoutState → List String → LayoutState
  | s, [] => s
  | s, lineStr :: rest =>
      let s1 := checkPageBreak s (lineH + 4)
      let s2 := emit s1 (.fillRect margin (s1.y - 2) maxWidth (lineH + 2) ⟨245, 245, 245⟩)
      let wrapped := wrap (jsOr lineStr " ") (maxWidth - 6) sizes.code
      let s3 := emit s2 (.text wrapped (margin + 3) s1.y sizes.code "courier" "normal"
        ⟨60, 60, 60⟩)
      placeCodeSplit wrap sizes lineH
        { s3 with y := s3.y + (wrapped.length : ℚ) * lineH } rest

/-- The inner line loop of the one-page code-block branch: lines are painted
at the running local offset `codeY`; the cursor `y` is not touched here. -/
def placeCodeFixed (wrap : WrapFn) (sizes : PdfSizes) (lineH : ℚ) (codeY : ℚ)
    (s : LayoutState) : List String → LayoutState
  | [] => s
  | lineStr :: rest =>
      let wrapped := wrap (jsOr lineStr " ") (maxWidth - 6) sizes.code
      let s1 := emit s (.text wrapped (margin + 3) codeY sizes.code "courier" "normal"
        ⟨60, 60, 60⟩)
      placeCodeFixed wrap sizes lineH (codeY + (wrapped.length : ℚ) * lineH) s1 rest

/-- The inner `colIdx` loop of the table case: for each column, the stroked
cell border then at most the first wrapped line of the cell text.
`remaining` counts the columns still to paint. -/
def renderCells (wrap : WrapFn) (sizes : PdfSizes) (colors : DerivedColors)
    (isHeader : Bool) (colWidth rowHeight : ℚ) (row : List String)
    (s : LayoutState) : Nat → Nat → LayoutState
  | _, 0 => s
  | colIdx, remaining + 1 =>
      let cellX := margin + (colIdx : ℚ) * colWidth
      let cellText := row.getD colIdx ""
      let s1 := emit s (.strokeRect cellX (s.y - 2) colWidth rowHeight colors.borderRgb (3 / 10))
      let wrapped := wrap cellText (colWidth - 2 * 2) sizes.base
      let s2 := emit s1 (.text [wrapped.headD ""] (cellX + 2) (s.y + 2) sizes.base
        "helvetica" (if isHeader then "bold" else "normal") colors.textRgb)
      renderCells wrap sizes colors isHeader colWidth rowHeight row s2 (colIdx + 1) remaining

/-- One iteration of the table row loop: per-row page-break check, the
header background for the flagged first row, then all cells, then advance
`y` by the row height. -/
def renderTableRow (wrap : WrapFn) (sizes : PdfSizes) (colors : DerivedColors)
    (hasHeader : Bool) (rowIdx colCount : Nat) (colWidth rowHeight : ℚ)
    (row : List String) (s : LayoutState) : LayoutState :=
  let isHeader := hasHeader && rowIdx == 0
  let s1 := checkPageBreak s rowHeight
  let s2 := if isHeader then
      emit s1 (.fillRect margin (s1.y - 2) maxWidth rowHeight ⟨245, 245, 245⟩)
    else s1
  let s3 := renderCells wrap sizes colors isHeader colWidth rowHeight row s2 0 colCount
  { s3 with y := s3.y + rowHeight }

/-- The table row loop, starting at row index `rowIdx`. -/
def renderTableRows (wrap : WrapFn) (sizes : PdfSizes) (colors : DerivedColors)
    (hasHeader : Bool) (colCount : Nat) (colWidth rowHeight : ℚ) :
    Nat → LayoutState → List (List String) → LayoutState
  | _, s, [] => s
  | rowIdx, s, row :: rest =>
      renderTableRows wrap sizes colors hasHeader colCount colWidth rowHeight
        (rowIdx + 1)
        (renderTableRow wrap sizes colors hasHeader rowIdx colCount colWidth rowHeight row s)
        rest

/-- `Math.max(...rows.map(r => r.length))` for a nonempty `rows`. -/
def maxCellCount (rows : List (List String)) : Nat :=
  rows.foldl (fun m r => max m r.length) 0

/-- The `case 'hr'` body (the only case that reads nothing from the size
table). -/
def renderHr (colors : DerivedColors) (s : LayoutState) : LayoutState :=
  let s1 := checkPageBreak s 10
  let s2 := { s1 with y := s1.y + 5 }
  let s3 := emit s2 (.line margin s2.y (pageWidth - margin) s2.y colors.borderRgb (1 / 2))
  { s3 with y := s3.y + 5 }

/-- The body of the per-element `switch` of `exportToPDF`, for one element,
with a resolved size table. -/
def renderElement (wrap : WrapFn) (sizes : PdfSizes) (colors : DerivedColors)
    (s : LayoutState) : PDFElement → LayoutState
  | .h1 t =>
      let s1 := checkPageBreak s 15
      let s2 := { s1 with y := s1.y + 8 }
      let lines := wrap t maxWidth sizes.h1
      let s3 := emit s2 (.text lines margin s2.y sizes.h1 "helvetica" "bold" colors.h1Rgb)
      let s4 := { s3 with y := s3.y + (lines.length : ℚ) * (sizes.h1 * (2 / 5)) + 3 }
      let s5 := emit s4 (.line margin s4.y (pageWidth - margin) s4.y colors.borderRgb (1 / 2))
      { s5 with y := s5.y + 5 }
  | .h2 t =>
      let s1 := checkPageBreak s 12
      let s2 := { s1 with y := s1.y + 6 }
      let lines := wrap t maxWidth sizes.h2
      let s3 := emit s2 (.text lines margin s2.y sizes.h2 "helvetica" "bold" colors.h2Rgb)
      let s4 := { s3 with y := s3.y + (lines.length : ℚ) * (sizes.h2 * (2 / 5)) + 2 }
      let s5 := emit s4 (.line margin s4.y (pageWidth - margin) s4.y colors.borderRgb (3 / 10))
      { s5 with y := s5.y + 4 }
  | .h3 t =>
      let s1 := checkPageBreak s 10
      let s2 := { s1 with y := s1.y + 4 }
      let lines := wrap t maxWidth sizes.h3
      let s3 := emit s2 (.text lines margin s2.y sizes.h3 "helvetica" "bold" colors.h3Rgb)
      { s3 with y := s3.y + (lines.length : ℚ) * (sizes.h3 * (2 / 5)) + 3 }
  | .p t =>
      let lineH := sizes.base * (2 / 5) * sizes.lineHeight
      let lines := wrap t maxWidth sizes.base
      let s1 := placeParaLines sizes colors lineH s lines
      { s1 with y := s1.y + 3 }
  | .li t indent ordered index =>
      let ind : ℚ := (if indent = 0 then 1 else (indent : ℚ)) * 5
      let bullet := if ordered then s!"{index}." else "•"
      let lineH := sizes.base * (2 / 5) * sizes.lineHeight
      let cleanText := jsTrim t
      let lines := wrap cleanText (maxWidth - ind - 5) sizes.base
      let s1 := checkPageBreak s ((lines.length : ℚ) * lineH)
      let s2 := emit s1 (.text [bullet] (margin + ind - 4) s1.y sizes.base "helvetica"
        "normal" colors.textRgb)
      let s3 := emit s2 (.text lines (margin + ind + 2) s1.y sizes.base "helvetica"
        "normal" colors.textRgb)
      { s3 with y := s3.y + (lines.length : ℚ) * lineH + 1 }
  | .pre t =>
      let codeLines := jsSplitNewline t
      let lineH := sizes.code * (2 / 5)
      let blockHeight := (codeLines.length : ℚ) * lineH + 6
      if blockHeight > pageHeight - margin * 2 - footerHeight then
        let s1 := placeCodeSplit wrap sizes lineH s codeLines
        { s1 with y := s1.y + 3 }
      else
        let s1 := checkPageBreak s blockHeight
        let s2 := emit s1 (.fillRoundedRect margin (s1.y - 2) maxWidth blockHeight 2 2
          ⟨245, 245, 245⟩)
        let s3 := placeCodeFixed wrap sizes lineH (s1.y + 2) s2 codeLines
        { s3 with y := s3.y + blockHeight + 3 }
  | .blockquote t =>
      let lineH := sizes.base * (2 / 5) * sizes.lineHeight
      let lines := wrap t (maxWidth - 10) sizes.base
      let blockHeight := (lines.length : ℚ) * lineH + 4
      let s1 := checkPageBreak s blockHeight
      let s2 := emit s1 (.fillRect margin (s1.y - 2) 2 blockHeight ⟨100, 100, 100⟩)
      let s3 := emit s2 (.fillRect (margin + 3) (s1.y - 2) (maxWidth - 3) blockHeight
        ⟨250, 250, 250⟩)
      let s4 := emit s3 (.text lines (margin + 6) (s1.y + 2) sizes.base "helvetica"
        "italic" colors.textSecondaryRgb)
      { s4 with y := s4.y + blockHeight + 3 }
  | .table rows hasHeader =>
      if rows.length = 0 then s
      else
        let colCount := maxCellCount rows
        let cellPadding : ℚ := 2
        let colWidth := (maxWidth - cellPadding * 2) / (colCount : ℚ)
        let rowHeight := sizes.base * (2 / 5) * sizes.lineHeight + cellPadding * 2
        let s1 := renderTableRows wrap sizes colors hasHeader colCount colWidth rowHeight
          0 s rows
        { s1 with y := s1.y + 3 }
  | .hr => renderHr colors s

/-- The `TypeError` a field access on an `undefined` size record throws. -/
def undefinedSizesMsg : String := "TypeError: cannot read properties of undefined (sizes)"

/-- The `TypeError` thrown by `hexToRgb(colors.textPrimary)` when the theme
lookup yielded `undefined`. -/
def undefinedColorsMsg : String := "TypeError: cannot read properties of undefined (colors)"

/-- The `for (const element of elements)` loop.  With the size record
`undefined`, every case except `hr` throws at its first `sizes.*` access;
the thrown error aborts the whole export. -/
def renderAll (wrap : WrapFn) (sizesQ : Option PdfSizes) (colors : DerivedColors) :
    List PDFElement → LayoutState → Except String LayoutState
  | [], s => .ok s
  | e :: es, s =>
      match sizesQ with
      | some sizes => renderAll wrap sizesQ colors es (renderElement wrap sizes colors s e)
      | none =>
          match e with
          | .hr => renderAll wrap sizesQ colors es (renderHr colors s)
          | _ => .error undefinedSizesMsg

/-- The left footer stamp on every page. -/
def footerDateCmd (date : String) : DrawCmd :=
  .text ["Exported from MarkLite on " ++ date] margin (pageHeight - 10) 8 "helvetica"
    "normal" ⟨150, 150, 150⟩

/-- The right footer stamp: `"Page {i} of {total}"`. -/
def footerPageCmd (i total : Nat) : DrawCmd :=
  .text [s!"Page {i} of {total}"] (pageWidth - margin - 20) (pageHeight - 10) 8
    "helvetica" "normal" ⟨150, 150, 150⟩

/-- The footer pass: the `for (let i = 1; i <= pageCount; i++)` loop, run
after layout is complete.  Page `i` (1-based) gets the date stamp and its
`"Page i of total"` stamp appended, in that order. -/
def finalizePages (date : String) (pages : List (List DrawCmd)) : List (List DrawCmd) :=
  pages.mapIdx (fun i p => p ++ [footerDateCmd date, footerPageCmd (i + 1) pages.length])

/-- Observable outcome of one `exportToPDF` call: the early return on blank
input, a thrown error, or the finalized page list handed to the byte sink. -/
inductive ExportOutcome where
  | skipped
  | error (msg : String)
  | ok (pages : List (List DrawCmd))
deriving Repr, DecidableEq

/-- `exportToPDF(htmlContent, fileName, theme, _font, fontSize)`.  The DOM
tree `container` is the external `DOMParser`'s parse of `htmlContent`; the
current date string and the text-measurement function are likewise external
inputs.  `fileName` and `_font` do not influence the page list and are
omitted. -/
def exportToPDF (wrap : WrapFn) (date : String) (htmlContent : String)
    (container : List HNode) (theme fontSize : String) : ExportOutcome :=
  if jsTrim htmlContent = "" then .skipped
  else
    let elements := parseHTMLForPDF container
    let sizesQ := pdfFontSizes fontSize
    match themeColors theme with
    | none => .error undefinedColorsMsg
    | some colors =>
        let dc : DerivedColors :=
          ⟨hexToRgb colors.textPrimary, hexToRgb colors.textSecondary,
            hexToRgb colors.border, hexToRgb colors.synH1, hexToRgb colors.synH2,
            hexToRgb colors.synH3⟩
        match renderAll wrap sizesQ dc elements initState with
        | .error e => .error e
        | .ok s => .ok (finalizePages date (s.done ++ [s.cur]))

/-! ### Helpers for the theorems -/

/-- A concrete measurement function for closed evaluations: every text is a
single line.  (The break decisions exercised by the concrete theorems below
are independent of how text wraps.) -/
def wrapOneLine : WrapFn := fun t _ _ => [t]

/-- Page list of an `ok` outcome (empty for the other outcomes). -/
def okPages : ExportOutcome → List (List DrawCmd)
  | .ok pages => pages
  | _ => []

/-- Is the command a stroked rectangle (only table cell borders emit one)? -/
def isStrokeRect : DrawCmd → Bool
  | .strokeRect .. => true
  | _ => false

/-- Is the command a plain filled rectangle? -/
def isFillRect : DrawCmd → Bool
  | .fillRect .. => true
  | _ => false

/-- Is the command a filled rounded rectangle (one-page code background)? -/
def isFillRoundedRect : DrawCmd → Bool
  | .fillRoundedRect .. => true
  | _ => false

/-- Is the command a text command? -/
def isTextCmd : DrawCmd → Bool
  | .text .. => true
  | _ => false

/-- All commands of all pages, document order: completed pages then the
current page. -/
def allCmds (s : LayoutState) : List DrawCmd :=
  s.done.flatMap id ++ s.cur

/-- The commands a rendering step appended, all on a single page: either no
page break happened and the current page only grew, or exactly one break
happened, the old current page was closed unchanged, and everything new is
on the fresh current page. -/
def extendsOnePage (s s2 : LayoutState) : Prop :=
  (s2.done = s.done ∧ ∃ t, s2.cur = s.cur ++ t) ∨ s2.done = s.done ++ [s.cur]

theorem allCmds_emit (s : LayoutState) (c : DrawCmd) :
    allCmds (emit s c) = allCmds s ++ [c] := by
  simp [allCmds, emit]

theorem allCmds_checkPageBreak (s : LayoutState) (h : ℚ) :
    allCmds (checkPageBreak s h) = allCmds s := by
  unfold checkPageBreak
  split <;> simp [allCmds]

/-! ### C9: the size-tier table -/

/-- C9: the style resolver maps each size tier exactly per the spec table:
small → body 10, h1 20, h2 16, h3 12, code 9, line-height 1.4; medium →
11/22/18/14/10/1.5; large → 12/24/20/16/11/1.6. -/
theorem pdfFontSizes_matches_spec_table :
    (∃ r, pdfFontSizes "small" = some r ∧ r.base = 10 ∧ r.h1 = 20 ∧ r.h2 = 16 ∧
      r.h3 = 12 ∧ r.code = 9 ∧ r.lineHeight = 1.4) ∧
    (∃ r, pdfFontSizes "medium" = some r ∧ r.base = 11 ∧ r.h1 = 22 ∧ r.h2 = 18 ∧
      r.h3 = 14 ∧ r.code = 10 ∧ r.lineHeight = 1.5) ∧
    (∃ r, pdfFontSizes "large" = some r ∧ r.base = 12 ∧ r.h1 = 24 ∧ r.h2 = 20 ∧
      r.h3 = 16 ∧ r.code = 11 ∧ r.lineHeight = 1.6) :=
  ⟨⟨_, rfl, rfl, rfl, rfl, rfl, rfl, by norm_num⟩,
   ⟨_, rfl, rfl, rfl, rfl, rfl, rfl, by norm_num⟩,
   ⟨_, rfl, rfl, rfl, rfl, rfl, rfl, by norm_num⟩⟩

/-! ### C5: the footer pass -/

/-- C5: the finalizer is a second pass over the completed page list that
appends (never replaces, reorders or removes) exactly two text commands to
every page — the export-date stamp and `"Page {i} of {total}"` — and every
page index satisfies `1 ≤ i ≤ total` with the same total on all pages. -/
theorem finalizePages_appends_two_footers (date : String)
    (pages : List (List DrawCmd)) (i : Nat) (h : i < pages.length) :
    (finalizePages date pages).length = pages.length ∧
    (finalizePages date pages).getD i [] =
      pages.getD i [] ++ [footerDateCmd date, footerPageCmd (i + 1) pages.length] ∧
    1 ≤ i + 1 ∧ i + 1 ≤ pages.length := by
  have hl : (finalizePages date pages).length = pages.length := by
    simp [finalizePages]
  refine ⟨hl, ?_, Nat.le_add_left 1 i, h⟩
  have h2 : i < (finalizePages date pages).length := hl ▸ h
  rw [List.getD_eq_getElem _ _ h2, List.getD_eq_getElem _ _ h]
  simp [finalizePages, List.mapIdx_eq_enum_map]

/-- Witness for C5 at a concrete two-page document. -/
theorem finalizePages_appends_two_footers_witness :
    (finalizePages "June 1, 2025" [[], []]).length = ([[], []] : List (List DrawCmd)).length ∧
    (finalizePages "June 1, 2025" [[], []]).getD 1 [] =
      ([[], []] : List (List DrawCmd)).getD 1 [] ++
        [footerDateCmd "June 1, 2025",
          footerPageCmd (1 + 1) ([[], []] : List (List DrawCmd)).length] ∧
    1 ≤ 1 + 1 ∧ 1 + 1 ≤ ([[], []] : List (List DrawCmd)).length :=
  finalizePages_appends_two_footers "June 1, 2025" [[], []] 1 (by decide)

/-! ### C3: empty / unparseable input -/

/-- Counterexample to C3: on empty input the export does not produce one
footer-only page — it returns early (`console.error` + `return`) with no
page list at all. -/
theorem export_empty_input_counterexample :
    exportToPDF wrapOneLine "June 1, 2025" "" [] "dark" "medium" =
      ExportOutcome.skipped ∧
    exportToPDF wrapOneLine "June 1, 2025" "" [] "dark" "medium" ≠
      ExportOutcome.ok [[footerDateCmd "June 1, 2025", footerPageCmd 1 1]] :=
  ⟨rfl, by decide⟩

/-- C3 as amended: empty or whitespace-only input makes the export return
early with no output (and no error); nonempty input that parses to zero
blocks does yield exactly one finalized page whose only commands are the
two footer stamps. -/
theorem export_blank_skips_blockless_one_page (wrap : WrapFn) (date content : String)
    (container : List HNode) (theme fontSize : String) :
    (jsTrim content = "" →
      exportToPDF wrap date content container theme fontSize = ExportOutcome.skipped) ∧
    (jsTrim content ≠ "" → parseHTMLForPDF container = [] → (themeColors theme).isSome →
      exportToPDF wrap date content container theme fontSize =
        ExportOutcome.ok [[footerDateCmd date, footerPageCmd 1 1]]) := by
  constructor
  · intro hb
    simp [exportToPDF, hb]
  · intro hb hparse hsome
    obtain ⟨tc, htc⟩ := Option.isSome_iff_exists.mp hsome
    simp [exportToPDF, hb, hparse, htc, renderAll, initState, finalizePages,
      List.mapIdx_eq_enum_map]

/-- Witness for C3's amended theorem: a nonempty but blockless document
yields one footer-only page. -/
theorem export_blank_skips_blockless_one_page_witness :
    exportToPDF wrapOneLine "June 1, 2025" "<span></span>"
      [HNode.element "span" []] "dark" "medium" =
      ExportOutcome.ok [[footerDateCmd "June 1, 2025", footerPageCmd 1 1]] :=
  (export_blank_skips_blockless_one_page wrapOneLine "June 1, 2025" "<span></span>"
    [HNode.element "span" []] "dark" "medium").2 (by decide) (by decide) (by decide)

/-! ### C1: unknown theme / size tier -/

/-- Lemma: with the size record `undefined`, rendering throws at the first
element that is not a horizontal rule. -/
theorem renderAll_none_error (wrap : WrapFn) (colors : DerivedColors) :
    ∀ (es : List PDFElement) (s : LayoutState),
      (∃ e ∈ es, e ≠ PDFElement.hr) →
      renderAll wrap none colors es s = .error undefinedSizesMsg := by
  intro es
  induction es with
  | nil => intro s h; simp at h
  | cons e rest ih =>
      intro s h
      cases e with
      | hr =>
          obtain ⟨x, hx, hne⟩ := h
          rcases List.mem_cons.mp hx with h1 | h2
          · exact absurd h1 hne
          · simpa [renderAll] using ih _ ⟨x, h2, hne⟩
      | h1 t => simp [renderAll]
      | h2 t => simp [renderAll]
      | h3 t => simp [renderAll]
      | p t => simp [renderAll]
      | li t indent ordered index => simp [renderAll]
      | pre t => simp [renderAll]
      | blockquote t => simp [renderAll]
      | table rows hasHeader => simp [renderAll]

/-- Lemma: with the size record `undefined`, a block list of only
horizontal rules renders without throwing. -/
theorem renderAll_none_ok (wrap : WrapFn) (colors : DerivedColors) :
    ∀ (es : List PDFElement) (s : LayoutState),
      (∀ e ∈ es, e = PDFElement.hr) →
      ∃ s2, renderAll wrap none colors es s = .ok s2 := by
  intro es
  induction es with
  | nil => exact fun s _ => ⟨s, rfl⟩
  | cons e rest ih =>
      intro s h
      have he : e = PDFElement.hr := h e (List.mem_cons_self e rest)
      subst he
      simpa [renderAll] using ih (renderHr colors s) (fun x hx => h x (List.mem_cons_of_mem _ hx))

/-- Counterexample to C1: an unknown size tier with a known theme does not
abort before layout with a configuration error and no output — a document
consisting of one horizontal rule exports completely, page output included. -/
theorem export_unknown_tier_counterexample :
    exportToPDF wrapOneLine "June 1, 2025" "<hr>" [HNode.element "hr" []] "dark" "huge" =
      ExportOutcome.ok [[DrawCmd.line 20 25 190 25 ⟨38, 38, 38⟩ (1 / 2),
        footerDateCmd "June 1, 2025", footerPageCmd 1 1]] := by
  decide

/-- C1 as amended: an unknown theme aborts the export with a thrown type
error (there is no named `ConfigurationError` in the code) before any page
is produced, returning no output; an unknown size tier alone aborts only
when a block other than a horizontal rule is rendered — its first
`sizes.*` field access throws — while a document whose blocks are all
horizontal rules (or that has no blocks) exports completely. -/
theorem export_unknown_config_amended (wrap : WrapFn) (date content : String)
    (container : List HNode) (theme fontSize : String) :
    (themeColors theme = none → jsTrim content ≠ "" →
      exportToPDF wrap date content container theme fontSize =
        ExportOutcome.error undefinedColorsMsg) ∧
    (pdfFontSizes fontSize = none → (themeColors theme).isSome → jsTrim content ≠ "" →
      (∃ e ∈ parseHTMLForPDF container, e ≠ PDFElement.hr) →
      exportToPDF wrap date content container theme fontSize =
        ExportOutcome.error undefinedSizesMsg) ∧
    (pdfFontSizes fontSize = none → (themeColors theme).isSome → jsTrim content ≠ "" →
      (∀ e ∈ parseHTMLForPDF container, e = PDFElement.hr) →
      ∃ pages, exportToPDF wrap date content container theme fontSize =
        ExportOutcome.ok pages) := by
  refine ⟨fun hth hb => ?_, fun hfs hth hb hex => ?_, fun hfs hth hb hall => ?_⟩
  · simp [exportToPDF, hb, hth]
  · obtain ⟨tc, htc⟩ := Option.isSome_iff_exists.mp hth
    have hra := renderAll_none_error wrap
      ⟨hexToRgb tc.textPrimary, hexToRgb tc.textSecondary, hexToRgb tc.border,
        hexToRgb tc.synH1, hexToRgb tc.synH2, hexToRgb tc.synH3⟩
      (parseHTMLForPDF container) initState hex
    simp [exportToPDF, hb, htc, hfs, hra]
  · obtain ⟨tc, htc⟩ := Option.isSome_iff_exists.mp hth
    obtain ⟨s2, hs2⟩ := renderAll_none_ok wrap
      ⟨hexToRgb tc.textPrimary, hexToRgb tc.textSecondary, hexToRgb tc.border,
        hexToRgb tc.synH1, hexToRgb tc.synH2, hexToRgb tc.synH3⟩
      (parseHTMLForPDF container) initState hall
    refine ⟨finalizePages date (s2.done ++ [s2.cur]), ?_⟩
    simp [exportToPDF, hb, htc, hfs, hs2]

/-- Witness for C1's amended theorem: with a known theme and the unknown
tier `"huge"`, a one-paragraph document throws the `sizes` type error. -/
theorem export_unknown_config_amended_witness :
    exportToPDF wrapOneLine "June 1, 2025" "<p>hi</p>"
      [HNode.element "p" [HNode.text "hi"]] "dark" "huge" =
      ExportOutcome.error undefinedSizesMsg :=
  (export_unknown_config_amended wrapOneLine "June 1, 2025" "<p>hi</p>"
    [HNode.element "p" [HNode.text "hi"]] "dark" "huge").2.1 rfl (by decide) (by decide)
    ⟨PDFElement.p "hi", by decide, by decide⟩

/-! ### C8: per-list ordinal reset -/

/-- Lemma: in a list element's child loop, the first direct `li` child emits
its block first, with ordinal `counter + 1` and the loop's ordered flag. -/
theorem processListItems_first_li (ord : Bool) :
    ∀ (cs : List HNode) (n k : Nat), cs.any (HNode.isTag "li") = true →
      ∃ t rest, processListItems n ord k cs =
        PDFElement.li t (n + 1) ord (k + 1) :: rest := by
  intro cs
  induction cs with
  | nil => intro n k h; simp at h
  | cons c cst ih =>
      intro n k h
      by_cases hc : HNode.isTag "li" c = true
      · obtain ⟨ccs, rfl⟩ : ∃ ccs, c = HNode.element "li" ccs := by
          cases c with
          | element tag ccs =>
              refine ⟨ccs, ?_⟩
              have : tag = "li" := by simpa [HNode.isTag] using hc
              rw [this]
          | text s => simp [HNode.isTag] at hc
        refine ⟨HNode.textContentList ccs,
          processNestedLists (n + 1) ccs ++ processListItems n ord (k + 1) cst, ?_⟩
        simp [processListItems, hc, processNode]
      · have h2 : cst.any (HNode.isTag "li") = true := by
          rcases List.any_eq_true.mp h with ⟨x, hx, hlx⟩
          rcases List.mem_cons.mp hx with rfl | hx2
          · exact absurd hlx hc
          · exact List.any_eq_true.mpr ⟨x, hx2, hlx⟩
        obtain ⟨t, rest, hres⟩ := ih n k h2
        exact ⟨t, rest, by simp [processListItems, hc, hres]⟩

/-- C8: sibling lists are flattened independently (no shared running
ordinal); an ordered list's first item always carries ordinal 1 with
`ordered = true`; an unordered list's first item carries `ordered = false`. -/
theorem ordered_list_ordinal_reset (cs1 cs2 : List HNode) :
    parseHTMLForPDF [HNode.element "ol" cs1, HNode.element "ol" cs2] =
      parseHTMLForPDF [HNode.element "ol" cs1] ++
        parseHTMLForPDF [HNode.element "ol" cs2] ∧
    (∀ cs : List HNode, cs.any (HNode.isTag "li") = true →
      ∃ t rest, processNode 0 false 0 (HNode.element "ol" cs) =
        PDFElement.li t 1 true 1 :: rest) ∧
    (∀ cs : List HNode, cs.any (HNode.isTag "li") = true →
      ∃ t idx rest, processNode 0 false 0 (HNode.element "ul" cs) =
        PDFElement.li t 1 false idx :: rest) := by
  refine ⟨?_, ?_, ?_⟩
  · simp [parseHTMLForPDF, processChildren]
  · intro cs h
    obtain ⟨t, rest, hr⟩ := processListItems_first_li true cs 0 0 h
    exact ⟨t, rest, by simpa [processNode] using hr⟩
  · intro cs h
    obtain ⟨t, rest, hr⟩ := processListItems_first_li false cs 0 0 h
    exact ⟨t, 1, rest, by simpa [processNode] using hr⟩

/-- Witness for C8: two concrete sibling ordered lists both start at 1. -/
theorem ordered_list_ordinal_reset_witness :
    parseHTMLForPDF [HNode.element "ol" [HNode.element "li" [HNode.text "a"]],
        HNode.element "ol" [HNode.element "li" [HNode.text "b"]]] =
      [PDFElement.li "a" 1 true 1, PDFElement.li "b" 1 true 1] ∧
    (∃ t rest, processNode 0 false 0
        (HNode.element "ol" [HNode.element "li" [HNode.text "b"]]) =
      PDFElement.li t 1 true 1 :: rest) :=
  ⟨by decide,
   (ordered_list_ordinal_reset [] []).2.1 [HNode.element "li" [HNode.text "b"]] (by decide)⟩

/-! ### C10: the header flag comes from `thead` presence alone -/

/-- The medium-tier size record (the value of `pdfFontSizes.medium`). -/
def mediumSizes : PdfSizes := ⟨11, 22, 18, 14, 10, 3 / 2⟩

/-- The derived RGB values of the `dark` theme. -/
def darkDerived : DerivedColors :=
  ⟨⟨255, 255, 255⟩, ⟨115, 115, 115⟩, ⟨38, 38, 38⟩,
    ⟨255, 255, 255⟩, ⟨229, 229, 229⟩, ⟨212, 212, 212⟩⟩

/-- C10: the extracted table's header flag equals the presence of a `thead`
descendant, irrespective of whether that `thead` contributed any rows; so a
table whose `thead` has no rows still gets `hasHeader = true`, and its first
extracted row — a body row — is rendered with the header styling (filled
background, bold text). -/
theorem table_header_flag_from_thead_presence :
    (∀ cs : List HNode,
      (tableExtract cs).2 = !(HNode.collectDescList ["thead"] false cs).isEmpty) ∧
    tableExtract [HNode.element "thead" [],
        HNode.element "tbody" [HNode.element "tr" [HNode.element "td" [HNode.text "X"]]]] =
      ([["X"]], true) ∧
    renderElement wrapOneLine mediumSizes darkDerived initState
        (PDFElement.table [["X"]] true) =
      ⟨[], [DrawCmd.fillRect 20 18 170 (53 / 5) ⟨245, 245, 245⟩,
        DrawCmd.strokeRect 20 18 166 (53 / 5) ⟨38, 38, 38⟩ (3 / 10),
        DrawCmd.text ["X"] 22 22 11 "helvetica" "bold" ⟨255, 255, 255⟩], 168 / 5⟩ := by
  refine ⟨fun cs => ?_, by decide, by decide⟩
  cases h : HNode.collectDescList ["thead"] false cs <;> simp [tableExtract, h]

/-! ### C6: table flattening order and skip rule -/

mutual
/-- Structural equality of DOM nodes. -/
def HNode.beqNode : HNode → HNode → Bool
  | .text s, .text t => s == t
  | .element t1 cs1, .element t2 cs2 => t1 == t2 && HNode.beqList cs1 cs2
  | _, _ => false

/-- Structural equality of DOM node lists. -/
def HNode.beqList : List HNode → List HNode → Bool
  | [], [] => true
  | c :: cs, d :: ds => HNode.beqNode c d && HNode.beqList cs ds
  | _, _ => false
end

instance : BEq HNode := ⟨HNode.beqNode⟩

/-- The table extraction as claim C6 words it: the header rows (the rows of
the table's `thead`, if present) first in document order, then the body rows
(the `tr` elements of the `tbody` search root), skipping exactly the rows
already counted as header. -/
def tableRowsClaimed (cs : List HNode) : List (List String) :=
  let theadQ := ((HNode.collectDescList ["thead"] false cs).map Prod.fst).head?
  let headerTrs := match theadQ with
    | some th => (HNode.collectDesc ["tr"] false th).map Prod.fst
    | none => []
  let bodyTrs := match (HNode.collectDescList ["tbody"] false cs).head? with
    | some (tb, _) => (HNode.collectDesc ["tr"] false tb).map Prod.fst
    | none => (HNode.collectDescList ["tr"] false cs).map Prod.fst
  headerTrs.map cellTexts ++
    (bodyTrs.filter (fun tr => !(headerTrs.contains tr))).map cellTexts

/-- A table with two `thead` elements and a loose body row: the code counts
only the first `thead`'s row as header but then skips every row lying inside
any `thead`, so the second `thead`'s row `["B"]` — never counted as header —
is dropped entirely. -/
def twoTheadTable : List HNode :=
  [HNode.element "thead" [HNode.element "tr" [HNode.element "td" [HNode.text "A"]]],
   HNode.element "thead" [HNode.element "tr" [HNode.element "td" [HNode.text "B"]]],
   HNode.element "tr" [HNode.element "td" [HNode.text "C"]]]

/-- Counterexample to C6: the flattener does not emit "body rows skipping
the rows already counted as header" — it skips every row inside any `thead`,
so row `["B"]` disappears although it was never counted as a header row. -/
theorem table_flatten_counterexample :
    (tableExtract twoTheadTable).1 = [["A"], ["C"]] ∧
    tableRowsClaimed twoTheadTable = [["A"], ["B"], ["C"]] ∧
    (tableExtract twoTheadTable).1 ≠ tableRowsClaimed twoTheadTable := by
  decide

mutual
/-- All descendant elements with a tag in `tags`, document order (the
flag-free projection of the searcher). -/
def allTagged (tags : List String) : List HNode → List HNode
  | [] => []
  | c :: cs =>
      (match c with
       | .element tag _ => if tags.contains tag then [c] else []
       | .text _ => [])
      ++ allTaggedDesc tags c ++ allTagged tags cs

/-- `allTagged` under one node. -/
def allTaggedDesc (tags : List String) : HNode → List HNode
  | .text _ => []
  | .element _ ccs => allTagged tags ccs
end

mutual
/-- The `tr` descendants reachable without passing through a `thead`
element, in document order. -/
def trsOutsideThead : List HNode → List HNode
  | [] => []
  | c :: cs =>
      (match c with
       | .element tag _ => if tag == "tr" then [c] else []
       | .text _ => [])
      ++ trsOutTheadDesc c ++ trsOutsideThead cs

/-- `trsOutsideThead` below one node: a `thead` blocks the descent. -/
def trsOutTheadDesc : HNode → List HNode
  | .text _ => []
  | .element tag ccs => if tag == "thead" then [] else trsOutsideThead ccs
end

mutual
/-- The collected nodes do not depend on the inherited `thead` flag. -/
theorem collectDesc_map_fst (tags : List String) (u : Bool) (c : HNode) :
    (HNode.collectDesc tags u c).map Prod.fst = allTaggedDesc tags c := by
  cases c with
  | text s => simp [HNode.collectDesc, allTaggedDesc]
  | element tag ccs =>
      simp only [HNode.collectDesc, allTaggedDesc]
      exact collectDescList_map_fst tags _ ccs

/-- List version of `collectDesc_map_fst`. -/
theorem collectDescList_map_fst (tags : List String) (u : Bool) (cs : List HNode) :
    (HNode.collectDescList tags u cs).map Prod.fst = allTagged tags cs := by
  cases cs with
  | nil => simp [HNode.collectDescList, allTagged]
  | cons c cst =>
      simp only [HNode.collectDescList, allTagged, List.map_append]
      rw [collectDesc_map_fst tags u c, collectDescList_map_fst tags u cst]
      cases c with
      | element tag ccs => by_cases h : tag ∈ tags <;> simp [h]
      | text s => simp
end

mutual
/-- The `tr` search pairs whose flag is clear are exactly the `tr` elements
reachable without passing a `thead` (and none at all when the inherited
flag is already set). -/
theorem collectDesc_filter_tr (u : Bool) (c : HNode) :
    ((HNode.collectDesc ["tr"] u c).filter (fun p => !p.2)).map Prod.fst =
      if u then [] else trsOutTheadDesc c := by
  cases c with
  | text s => simp [HNode.collectDesc, trsOutTheadDesc]
  | element tag ccs =>
      simp only [HNode.collectDesc, trsOutTheadDesc]
      rw [collectDescList_filter_tr (u || tag == "thead") ccs]
      by_cases ht : tag == "thead" <;> by_cases hu : u <;> simp [ht, hu]

/-- List version of `collectDesc_filter_tr`. -/
theorem collectDescList_filter_tr (u : Bool) (cs : List HNode) :
    ((HNode.collectDescList ["tr"] u cs).filter (fun p => !p.2)).map Prod.fst =
      if u then [] else trsOutsideThead cs := by
  cases cs with
  | nil => simp [HNode.collectDescList, trsOutsideThead]
  | cons c cst =>
      simp only [HNode.collectDescList, trsOutsideThead, List.filter_append,
        List.map_append]
      rw [collectDesc_filter_tr u c, collectDescList_filter_tr u cst]
      cases c with
      | element tag ccs =>
          by_cases ht : (["tr"].contains tag) <;> by_cases hu : u <;>
            simp [ht, hu, List.filter, List.contains] at * <;> simp_all
      | text s => by_cases hu : u <;> simp [hu]
end

/-- `node.children` (empty for text nodes). -/
def HNode.childrenOf : HNode → List HNode
  | .element _ cs => cs
  | .text _ => []

/-- C6 as amended, header side: the rows of the table's first `thead`
descendant, in document order, empty-celled rows included. -/
def headerRowsAmended (cs : List HNode) : List (List String) :=
  match (allTagged ["thead"] cs).head? with
  | some th => (allTaggedDesc ["tr"] th).map cellTexts
  | none => []

/-- C6 as amended, body side: the `tr` elements of the `tbody` search root
(the first `tbody` descendant, else the table itself) that lie outside every
`thead` element — all of its `tr`s when the table has no `thead` at all, and
none when the `tbody` itself sits inside a `thead` (the flag of the lookup
pair) — keeping only rows with at least one cell. -/
def bodyRowsAmended (cs : List HNode) : List (List String) :=
  let hasHeader := !(allTagged ["thead"] cs).isEmpty
  let bodyTrs :=
    match (HNode.collectDescList ["tbody"] false cs).head? with
    | some (tb, fl) =>
        if hasHeader then (if fl then [] else trsOutTheadDesc tb)
        else allTaggedDesc ["tr"] tb
    | none => if hasHeader then trsOutsideThead cs else allTagged ["tr"] cs
  (bodyTrs.map cellTexts).filter (fun cells => cells.length > 0)

/-- C6 as amended: the extracted rows are the first `thead`'s rows first, in
document order, followed by the body rows — the search root's `tr`s lying
outside every `thead` element (not merely the rows counted as header), with
cell-less body rows dropped — and a table block is emitted iff at least one
row was extracted. -/
theorem tableExtract_amended (cs : List HNode) :
    (tableExtract cs).1 = headerRowsAmended cs ++ bodyRowsAmended cs ∧
    processNode 0 false 0 (HNode.element "table" cs) =
      (if (tableExtract cs).1.isEmpty then []
       else [PDFElement.table (tableExtract cs).1 (tableExtract cs).2]) := by
  constructor
  · unfold tableExtract headerRowsAmended bodyRowsAmended
    rw [collectDescList_map_fst]
    cases hthead : (allTagged ["thead"] cs).head? with
    | none =>
        have hempty : (allTagged ["thead"] cs).isEmpty = true := by
          cases h : allTagged ["thead"] cs with
          | nil => rfl
          | cons a l => rw [h] at hthead; simp at hthead
        cases htb : (HNode.collectDescList ["tbody"] false cs).head? with
        | none =>
            simp only [htb, hempty, Option.isSome_none, Bool.false_and,
              Bool.not_false, List.filter_true, Bool.not_true, if_false]
            rw [show ((fun p : HNode × Bool => cellTexts p.1) =
              cellTexts ∘ Prod.fst) from rfl, ← List.map_map,
              collectDescList_map_fst]
            simp
        | some p =>
            obtain ⟨tb, fl⟩ := p
            simp only [htb, hempty, Option.isSome_none, Bool.false_and,
              Bool.not_false, List.filter_true, Bool.not_true, if_false]
            rw [show ((fun p : HNode × Bool => cellTexts p.1) =
              cellTexts ∘ Prod.fst) from rfl, ← List.map_map,
              collectDesc_map_fst]
            simp
    | some th =>
        have hne : (allTagged ["thead"] cs).isEmpty = false := by
          cases h : allTagged ["thead"] cs with
          | nil => rw [h] at hthead; simp at hthead
          | cons a l => rfl
        cases htb : (HNode.collectDescList ["tbody"] false cs).head? with
        | none =>
            simp only [htb, hne, hthead, Option.isSome_some, Bool.true_and,
              Bool.not_true, if_true]
            rw [show ((fun p : HNode × Bool => cellTexts p.1) =
              cellTexts ∘ Prod.fst) from rfl, ← List.map_map,
              collectDescList_filter_tr]
            rw [collectDesc_map_fst]
            simp
        | some p =>
            obtain ⟨tb, fl⟩ := p
            simp only [htb, hne, hthead, Option.isSome_some, Bool.true_and,
              Bool.not_true, if_true]
            rw [show ((fun p : HNode × Bool => cellTexts p.1) =
              cellTexts ∘ Prod.fst) from rfl, ← List.map_map,
              collectDesc_filter_tr]
            rw [collectDesc_map_fst]
            cases fl <;> simp
  · cases h : (tableExtract cs).1 with
    | nil => simp [processNode, h]
    | cons r rs => simp [processNode, h]


/-! ### C2: block atomicity across pages -/

/-- All commands a step appended went to the step's current page: the
completed pages are untouched and the current page only grew. -/
def SamePage (s s2 : LayoutState) : Prop :=
  s2.done = s.done ∧ ∃ t, s2.cur = s.cur ++ t

theorem samePage_refl (s : LayoutState) : SamePage s s :=
  ⟨rfl, [], by simp⟩

theorem samePage_emit (s s2 : LayoutState) (c : DrawCmd) (h : SamePage s s2) :
    SamePage s (emit s2 c) := by
  obtain ⟨hd, t, hc⟩ := h
  exact ⟨hd, t ++ [c], by simp [emit, hc]⟩

theorem samePage_setY (s s2 : LayoutState) (q : ℚ) (h : SamePage s s2) :
    SamePage s { s2 with y := q } :=
  ⟨h.1, h.2⟩

/-- A `checkPageBreak` followed by same-page work never lets a block span
two pages. -/
theorem extendsOnePage_of_samePage (s : LayoutState) (h : ℚ) (s2 : LayoutState)
    (hsp : SamePage (checkPageBreak s h) s2) : extendsOnePage s s2 := by
  unfold checkPageBreak at hsp
  split at hsp
  · exact Or.inr hsp.1
  · exact Or.inl ⟨hsp.1, hsp.2⟩

/-- The cell loop only appends to the current page. -/
theorem renderCells_samePage (wrap : WrapFn) (sizes : PdfSizes)
    (colors : DerivedColors) (isHeader : Bool) (colWidth rowHeight : ℚ)
    (row : List String) :
    ∀ (n i : Nat) (s0 s : LayoutState), SamePage s0 s →
      SamePage s0 (renderCells wrap sizes colors isHeader colWidth rowHeight row s i n) := by
  intro n
  induction n with
  | zero => intro i s0 s h; simpa [renderCells] using h
  | succ m ih =>
      intro i s0 s h
      rw [renderCells]
      exact ih (i + 1) s0 _ (samePage_emit _ _ _ (samePage_emit _ _ _ h))

/-- The paragraph loop places exactly one single-line text command per
wrapped line, in order: a wrapped line is never split across commands (and
hence never cut across a page boundary). -/
theorem placeParaLines_allCmds (sizes : PdfSizes) (colors : DerivedColors) (lineH : ℚ) :
    ∀ (lines : List String) (s : LayoutState), ∃ ys : List ℚ,
      ys.length = lines.length ∧
      allCmds (placeParaLines sizes colors lineH s lines) =
        allCmds s ++ List.zipWith (fun l y => DrawCmd.text [l] margin y sizes.base
          "helvetica" "normal" colors.textRgb) lines ys := by
  intro lines
  induction lines with
  | nil => intro s; exact ⟨[], rfl, by simp [placeParaLines]⟩
  | cons l rest ih =>
      intro s
      rw [placeParaLines]
      obtain ⟨ys, hlen, hcmds⟩ := ih _
      refine ⟨(checkPageBreak s lineH).y :: ys, by simp [hlen], ?_⟩
      rw [hcmds]
      simp [allCmds, emit, checkPageBreak]
      split <;> simp

/-- C2 as amended: Heading, ListItem, Blockquote (and Rule) commands all
land on a single page; each individual table row's commands land on a
single page (though a table as a whole may break between rows); a
Paragraph's wrapped lines are each placed whole, by one single-line command
each, in order; and each source line of a page-split CodeBlock is placed
with its background on a single page. -/
theorem block_atomicity_amended (wrap : WrapFn) (sizes : PdfSizes)
    (colors : DerivedColors) (s : LayoutState) :
    (∀ t, extendsOnePage s (renderElement wrap sizes colors s (.h1 t))) ∧
    (∀ t, extendsOnePage s (renderElement wrap sizes colors s (.h2 t))) ∧
    (∀ t, extendsOnePage s (renderElement wrap sizes colors s (.h3 t))) ∧
    (∀ t ind ord idx, extendsOnePage s (renderElement wrap sizes colors s (.li t ind ord idx))) ∧
    (∀ t, extendsOnePage s (renderElement wrap sizes colors s (.blockquote t))) ∧
    extendsOnePage s (renderElement wrap sizes colors s .hr) ∧
    (∀ hasHeader rowIdx colCount colWidth rowHeight row,
      extendsOnePage s (renderTableRow wrap sizes colors hasHeader rowIdx colCount
        colWidth rowHeight row s)) ∧
    (∀ t, ∃ ys : List ℚ,
      ys.length = (wrap t maxWidth sizes.base).length ∧
      allCmds (renderElement wrap sizes colors s (.p t)) =
        allCmds s ++ List.zipWith (fun l y => DrawCmd.text [l] margin y sizes.base
          "helvetica" "normal" colors.textRgb) (wrap t maxWidth sizes.base) ys) ∧
    (∀ lineStr, extendsOnePage s
      (placeCodeSplit wrap sizes (sizes.code * (2 / 5)) s [lineStr])) := by
  refine ⟨fun t => ?_, fun t => ?_, fun t => ?_, fun t ind ord idx => ?_, fun t => ?_,
    ?_, fun hasHeader rowIdx colCount colWidth rowHeight row => ?_, fun t => ?_,
    fun lineStr => ?_⟩
  · simp only [renderElement]
    exact extendsOnePage_of_samePage s 15 _ (samePage_setY _ _ _ (samePage_emit _ _ _
      (samePage_setY _ _ _ (samePage_emit _ _ _ (samePage_setY _ _ _ (samePage_refl _))))))
  · simp only [renderElement]
    exact extendsOnePage_of_samePage s 12 _ (samePage_setY _ _ _ (samePage_emit _ _ _
      (samePage_setY _ _ _ (samePage_emit _ _ _ (samePage_setY _ _ _ (samePage_refl _))))))
  · simp only [renderElement]
    exact extendsOnePage_of_samePage s 10 _ (samePage_setY _ _ _ (samePage_emit _ _ _
      (samePage_setY _ _ _ (samePage_refl _))))
  · simp only [renderElement]
    exact extendsOnePage_of_samePage s _ _ (samePage_setY _ _ _ (samePage_emit _ _ _
      (samePage_emit _ _ _ (samePage_refl _))))
  · simp only [renderElement]
    exact extendsOnePage_of_samePage s _ _ (samePage_setY _ _ _ (samePage_emit _ _ _
      (samePage_emit _ _ _ (samePage_emit _ _ _ (samePage_refl _)))))
  · simp only [renderElement, renderHr]
    exact extendsOnePage_of_samePage s 10 _ (samePage_setY _ _ _ (samePage_emit _ _ _
      (samePage_setY _ _ _ (samePage_refl _))))
  · unfold renderTableRow
    refine extendsOnePage_of_samePage s rowHeight _ (samePage_setY _ _ _ ?_)
    refine renderCells_samePage wrap sizes colors _ colWidth rowHeight row colCount 0 _ _ ?_
    split
    · exact samePage_emit _ _ _ (samePage_refl _)
    · exact samePage_refl _
  · simp only [renderElement]
    obtain ⟨ys, hlen, hcmds⟩ :=
      placeParaLines_allCmds sizes colors (sizes.base * (2 / 5) * sizes.lineHeight)
        (wrap t maxWidth sizes.base) s
    exact ⟨ys, hlen, hcmds⟩
  · rw [placeCodeSplit]
    refine extendsOnePage_of_samePage s (sizes.code * (2 / 5) + 4) _ ?_
    rw [placeCodeSplit]
    exact samePage_setY _ _ _ (samePage_emit _ _ _ (samePage_emit _ _ _ (samePage_refl _)))

/-- A one-column table with 21 rows at the large tier. -/
def bigTableTree : List HNode :=
  [HNode.element "table"
    (List.replicate 21 (HNode.element "tr" [HNode.element "td" [HNode.text "x"]]))]

/-- Counterexample to C2: a single Table block's commands do span two pages
— the row loop checks the page break per row, so 20 of the 21 bordered rows
land on page 1 and the last one on page 2 (stroked rectangles are emitted
only by table cells). -/
theorem table_spans_two_pages_counterexample :
    (okPages (exportToPDF wrapOneLine "June 1, 2025" "t" bigTableTree "dark" "large")).length
      = 2 ∧
    ((okPages (exportToPDF wrapOneLine "June 1, 2025" "t" bigTableTree "dark" "large")).map
      (fun p => (p.filter isStrokeRect).length)) = [20, 1] := by
  decide

/-! ### C7: table rendering -/

/-- The commands one table row paints at the vertical offset `yr` it was
placed at: the header background first (flagged rows only), then per column
a stroked cell border and at most the first wrapped line of the cell text
(bold on the flagged header row, normal otherwise). -/
def rowCmds (wrap : WrapFn) (sizes : PdfSizes) (colors : DerivedColors)
    (isHeader : Bool) (colCount : Nat) (colWidth rowHeight : ℚ) (row : List String)
    (yr : ℚ) : List DrawCmd :=
  (if isHeader then [DrawCmd.fillRect margin (yr - 2) maxWidth rowHeight ⟨245, 245, 245⟩]
   else [])
  ++ (List.range colCount).flatMap (fun colIdx =>
      [DrawCmd.strokeRect (margin + (colIdx : ℚ) * colWidth) (yr - 2) colWidth rowHeight
        colors.borderRgb (3 / 10),
       DrawCmd.text [(wrap (row.getD colIdx "") (colWidth - 2 * 2) sizes.base).headD ""]
         (margin + (colIdx : ℚ) * colWidth + 2) (yr + 2) sizes.base "helvetica"
         (if isHeader then "bold" else "normal") colors.textRgb])

/-- The commands of a whole table, row by row; `ys` lists the vertical
offsets the successive rows were placed at. -/
def tableCmds (wrap : WrapFn) (sizes : PdfSizes) (colors : DerivedColors)
    (hasHeader : Bool) (colCount : Nat) (colWidth rowHeight : ℚ) :
    Nat → List (List String) → List ℚ → List DrawCmd
  | _, [], _ => []
  | _, _ :: _, [] => []
  | rowIdx, row :: rest, yr :: ys =>
      rowCmds wrap sizes colors (hasHeader && rowIdx == 0) colCount colWidth rowHeight
          row yr
        ++ tableCmds wrap sizes colors hasHeader colCount colWidth rowHeight
            (rowIdx + 1) rest ys

/-- The cell loop paints, for columns `i, i+1, ...`, exactly the border and
single-line text of each cell, at the loop state's fixed offset. -/
theorem renderCells_allCmds (wrap : WrapFn) (sizes : PdfSizes) (colors : DerivedColors)
    (isHeader : Bool) (colWidth rowHeight : ℚ) (row : List String) :
    ∀ (n i : Nat) (s : LayoutState),
      allCmds (renderCells wrap sizes colors isHeader colWidth rowHeight row s i n) =
        allCmds s ++ (List.range' i n).flatMap (fun colIdx =>
          [DrawCmd.strokeRect (margin + (colIdx : ℚ) * colWidth) (s.y - 2) colWidth
            rowHeight colors.borderRgb (3 / 10),
           DrawCmd.text [(wrap (row.getD colIdx "") (colWidth - 2 * 2) sizes.base).headD ""]
             (margin + (colIdx : ℚ) * colWidth + 2) (s.y + 2) sizes.base "helvetica"
             (if isHeader then "bold" else "normal") colors.textRgb]) := by
  intro n
  induction n with
  | zero => intro i s; simp [renderCells]
  | succ m ih =>
      intro i s
      rw [renderCells, ih (i + 1)]
      simp [allCmds, emit, List.range'_succ]

/-- Rebuilding a state with only the offset changed keeps its commands. -/
theorem allCmds_reY (x : LayoutState) (q : ℚ) :
    allCmds ⟨x.done, x.cur, q⟩ = allCmds x := rfl

/-- `emit` leaves the offset unchanged. -/
theorem emit_y (s : LayoutState) (c : DrawCmd) : (emit s c).y = s.y := rfl

/-- One row loop iteration paints exactly `rowCmds` at the post-break
offset. -/
theorem renderTableRow_allCmds (wrap : WrapFn) (sizes : PdfSizes)
    (colors : DerivedColors) (hasHeader : Bool) (rowIdx colCount : Nat)
    (colWidth rowHeight : ℚ) (row : List String) (s : LayoutState) :
    allCmds (renderTableRow wrap sizes colors hasHeader rowIdx colCount colWidth
        rowHeight row s) =
      allCmds s ++ rowCmds wrap sizes colors (hasHeader && rowIdx == 0) colCount
        colWidth rowHeight row (checkPageBreak s rowHeight).y := by
  simp only [renderTableRow]
  by_cases hh : (hasHeader && rowIdx == 0) = true
  · rw [if_pos hh, allCmds_reY, renderCells_allCmds]
    simp only [emit_y]
    rw [allCmds_emit, allCmds_checkPageBreak]
    simp [rowCmds, hh, List.range_eq_range']
  · rw [if_neg hh, allCmds_reY, renderCells_allCmds]
    rw [allCmds_checkPageBreak]
    simp [rowCmds, hh, List.range_eq_range']

/-- The row loop paints exactly `tableCmds`, for some list of per-row
offsets. -/
theorem renderTableRows_allCmds (wrap : WrapFn) (sizes : PdfSizes)
    (colors : DerivedColors) (hasHeader : Bool) (colCount : Nat)
    (colWidth rowHeight : ℚ) :
    ∀ (rows : List (List String)) (rowIdx : Nat) (s : LayoutState),
      ∃ ys : List ℚ, ys.length = rows.length ∧
        allCmds (renderTableRows wrap sizes colors hasHeader colCount colWidth
            rowHeight rowIdx s rows) =
          allCmds s ++ tableCmds wrap sizes colors hasHeader colCount colWidth
            rowHeight rowIdx rows ys := by
  intro rows
  induction rows with
  | nil => intro rowIdx s; exact ⟨[], rfl, by simp [renderTableRows, tableCmds]⟩
  | cons row rest ih =>
      intro rowIdx s
      rw [renderTableRows]
      obtain ⟨ys, hlen, hcmds⟩ := ih (rowIdx + 1) _
      refine ⟨(checkPageBreak s rowHeight).y :: ys, by simp [hlen], ?_⟩
      rw [hcmds, renderTableRow_allCmds, tableCmds]
      simp

/-- Stroked rectangles have the uniform column width and row height. -/
def strokeDims (colWidth rowHeight : ℚ) : DrawCmd → Bool
  | .strokeRect _ _ w h _ _ => w == colWidth && h == rowHeight
  | _ => true

/-- Text commands carry at most one line (cell overflow is clipped, not
wrapped). -/
def textAtMostOneLine : DrawCmd → Bool
  | .text lines _ _ _ _ _ _ => Nat.ble lines.length 1
  | _ => true

/-- One row paints exactly one stroked border per column. -/
theorem rowCmds_strokeCount (wrap : WrapFn) (sizes : PdfSizes) (colors : DerivedColors)
    (isHeader : Bool) (colCount : Nat) (colWidth rowHeight : ℚ) (row : List String)
    (yr : ℚ) :
    ((rowCmds wrap sizes colors isHeader colCount colWidth rowHeight row yr).filter
      isStrokeRect).length = colCount := by
  unfold rowCmds
  rw [List.filter_append, List.length_append]
  have hgen : ∀ idxs : List Nat, ((idxs.flatMap (fun colIdx =>
      [DrawCmd.strokeRect (margin + (colIdx : ℚ) * colWidth) (yr - 2) colWidth rowHeight
        colors.borderRgb (3 / 10),
       DrawCmd.text [(wrap (row.getD colIdx "") (colWidth - 2 * 2) sizes.base).headD ""]
         (margin + (colIdx : ℚ) * colWidth + 2) (yr + 2) sizes.base "helvetica"
         (if isHeader then "bold" else "normal") colors.textRgb])).filter
      isStrokeRect).length = idxs.length := by
    intro idxs
    induction idxs with
    | nil => simp
    | cons a l ihl => simpa [isStrokeRect] using ihl
  rw [hgen, List.length_range]
  cases isHeader <;> simp [isStrokeRect]

/-- One row paints a filled background iff it is the flagged header row. -/
theorem rowCmds_fillCount (wrap : WrapFn) (sizes : PdfSizes) (colors : DerivedColors)
    (isHeader : Bool) (colCount : Nat) (colWidth rowHeight : ℚ) (row : List String)
    (yr : ℚ) :
    ((rowCmds wrap sizes colors isHeader colCount colWidth rowHeight row yr).filter
      isFillRect).length = if isHeader then 1 else 0 := by
  unfold rowCmds
  rw [List.filter_append, List.length_append]
  have hgen : ∀ idxs : List Nat, ((idxs.flatMap (fun colIdx =>
      [DrawCmd.strokeRect (margin + (colIdx : ℚ) * colWidth) (yr - 2) colWidth rowHeight
        colors.borderRgb (3 / 10),
       DrawCmd.text [(wrap (row.getD colIdx "") (colWidth - 2 * 2) sizes.base).headD ""]
         (margin + (colIdx : ℚ) * colWidth + 2) (yr + 2) sizes.base "helvetica"
         (if isHeader then "bold" else "normal") colors.textRgb])).filter
      isFillRect).length = 0 := by
    intro idxs
    induction idxs with
    | nil => simp
    | cons a l ihl => simpa [isFillRect] using ihl
  rw [hgen]
  cases isHeader <;> simp [isFillRect]

/-- Every command of one row has the uniform cell geometry and at most one
text line. -/
theorem rowCmds_all (wrap : WrapFn) (sizes : PdfSizes) (colors : DerivedColors)
    (isHeader : Bool) (colCount : Nat) (colWidth rowHeight : ℚ) (row : List String)
    (yr : ℚ) (c : DrawCmd)
    (hc : c ∈ rowCmds wrap sizes colors isHeader colCount colWidth rowHeight row yr) :
    strokeDims colWidth rowHeight c = true ∧ textAtMostOneLine c = true := by
  unfold rowCmds at hc
  rcases List.mem_append.mp hc with h1 | h2
  · constructor
    · cases isHeader <;> simp_all [strokeDims]
    · cases isHeader <;> simp_all [textAtMostOneLine]
  · rcases List.mem_flatMap.mp h2 with ⟨i, _, hmem⟩
    rcases List.mem_cons.mp hmem with rfl | hmem2
    · exact ⟨by simp [strokeDims], rfl⟩
    · rcases List.mem_cons.mp hmem2 with rfl | hmem3
      · exact ⟨rfl, rfl⟩
      · simp at hmem3

/-- Stroke count of a whole table: one border per cell of every row. -/
theorem tableCmds_strokeCount (wrap : WrapFn) (sizes : PdfSizes) (colors : DerivedColors)
    (hasHeader : Bool) (colCount : Nat) (colWidth rowHeight : ℚ) :
    ∀ (rows : List (List String)) (ys : List ℚ) (rowIdx : Nat),
      ys.length = rows.length →
      ((tableCmds wrap sizes colors hasHeader colCount colWidth rowHeight rowIdx rows
        ys).filter isStrokeRect).length = rows.length * colCount := by
  intro rows
  induction rows with
  | nil => intro ys rowIdx h; simp [tableCmds]
  | cons row rest ih =>
      intro ys rowIdx h
      cases ys with
      | nil => simp at h
      | cons yr ys2 =>
          rw [tableCmds, List.filter_append, List.length_append,
            rowCmds_strokeCount, ih ys2 (rowIdx + 1) (by simpa using h)]
          simp [List.length_cons, Nat.succ_mul, Nat.add_comm]

/-- Fill count of a whole table: exactly the flagged header background. -/
theorem tableCmds_fillCount_tail (wrap : WrapFn) (sizes : PdfSizes)
    (colors : DerivedColors) (hasHeader : Bool) (colCount : Nat)
    (colWidth rowHeight : ℚ) :
    ∀ (rows : List (List String)) (ys : List ℚ) (rowIdx : Nat), 1 ≤ rowIdx →
      ((tableCmds wrap sizes colors hasHeader colCount colWidth rowHeight rowIdx rows
        ys).filter isFillRect).length = 0 := by
  intro rows
  induction rows with
  | nil => intro ys rowIdx h; simp [tableCmds]
  | cons row rest ih =>
      intro ys rowIdx h
      cases ys with
      | nil => simp [tableCmds]
      | cons yr ys2 =>
          have hne : (rowIdx == 0) = false := by
            cases rowIdx with
            | zero => omega
            | succ m => rfl
          rw [tableCmds, List.filter_append, List.length_append,
            rowCmds_fillCount, ih ys2 (rowIdx + 1) (by omega)]
          simp [hne]

/-- Fill count of a whole table starting at row 0. -/
theorem tableCmds_fillCount (wrap : WrapFn) (sizes : PdfSizes) (colors : DerivedColors)
    (hasHeader : Bool) (colCount : Nat) (colWidth rowHeight : ℚ)
    (rows : List (List String)) (ys : List ℚ) :
    ((tableCmds wrap sizes colors hasHeader colCount colWidth rowHeight 0
      (rows) (ys)).filter isFillRect).length =
      (if hasHeader ∧ rows ≠ [] ∧ ys ≠ [] then 1 else 0) := by
  cases rows with
  | nil => simp [tableCmds]
  | cons row rest =>
      cases ys with
      | nil => simp [tableCmds]
      | cons y0 ys2 =>
          rw [tableCmds, List.filter_append, List.length_append, rowCmds_fillCount,
            tableCmds_fillCount_tail wrap sizes colors hasHeader colCount colWidth
              rowHeight rest ys2 1 (by omega)]
          cases hasHeader <;> simp

/-- Every command of a whole table has the uniform cell geometry and at most
one text line. -/
theorem tableCmds_all (wrap : WrapFn) (sizes : PdfSizes) (colors : DerivedColors)
    (hasHeader : Bool) (colCount : Nat) (colWidth rowHeight : ℚ) :
    ∀ (rows : List (List String)) (ys : List ℚ) (rowIdx : Nat) (c : DrawCmd),
      c ∈ tableCmds wrap sizes colors hasHeader colCount colWidth rowHeight rowIdx
        rows ys →
      strokeDims colWidth rowHeight c = true ∧ textAtMostOneLine c = true := by
  intro rows
  induction rows with
  | nil => intro ys rowIdx c hc; simp [tableCmds] at hc
  | cons row rest ih =>
      intro ys rowIdx c hc
      cases ys with
      | nil => simp [tableCmds] at hc
      | cons yr ys2 =>
          rw [tableCmds] at hc
          rcases List.mem_append.mp hc with h1 | h2
          · exact rowCmds_all wrap sizes colors _ colCount colWidth rowHeight row yr c h1
          · exact ih ys2 (rowIdx + 1) c h2

/-- The fold computing the column count bounds every row's cell count. -/
theorem maxCellCount_ge :
    ∀ (rows : List (List String)) (acc : Nat),
      acc ≤ rows.foldl (fun m r => max m r.length) acc ∧
      ∀ r ∈ rows, r.length ≤ rows.foldl (fun m r => max m r.length) acc := by
  intro rows
  induction rows with
  | nil => intro acc; exact ⟨Nat.le_refl acc, by simp⟩
  | cons row rest ih =>
      intro acc
      obtain ⟨hacc, hall⟩ := ih (max acc row.length)
      constructor
      · exact le_trans (Nat.le_max_left _ _) hacc
      · intro r hr
        rcases List.mem_cons.mp hr with rfl | hr2
        · exact le_trans (Nat.le_max_right _ _) hacc
        · exact hall r hr2

/-- The fold computing the column count is attained by some row (or is the
initial accumulator). -/
theorem maxCellCount_attained :
    ∀ (rows : List (List String)) (acc : Nat),
      rows.foldl (fun m r => max m r.length) acc = acc ∨
      ∃ r ∈ rows, rows.foldl (fun m r => max m r.length) acc = r.length := by
  intro rows
  induction rows with
  | nil => intro acc; exact Or.inl rfl
  | cons row rest ih =>
      intro acc
      rcases ih (max acc row.length) with h | ⟨r, hr, hlen⟩
      · rcases max_choice acc row.length with hm | hm
        · exact Or.inl (by rw [List.foldl_cons, h, hm])
        · exact Or.inr ⟨row, List.mem_cons_self row rest, by rw [List.foldl_cons, h, hm]⟩
      · exact Or.inr ⟨r, List.mem_cons_of_mem row hr, by rw [List.foldl_cons, hlen]⟩

/-- C7: for every rendered (nonempty) table, the column count is the
maximum cell count across its rows; the commands are exactly the per-row
header background / bordered-cell / single-line-text template at uniform
column width `(content width − padding) / columns` and uniform row height
(the template carries bold text exactly on the flagged header row and
normal text elsewhere); every stroked border has those uniform dimensions;
every cell text is at most one line (overflow clipped, not wrapped); there
is one stroked border per cell, and one filled background iff the header
flag is set. -/
theorem table_rendering_spec (wrap : WrapFn) (sizes : PdfSizes)
    (colors : DerivedColors) (rows : List (List String)) (hasHeader : Bool)
    (s : LayoutState) (hrows : rows ≠ []) :
    (∀ r ∈ rows, r.length ≤ maxCellCount rows) ∧
    (∃ r ∈ rows, r.length = maxCellCount rows) ∧
    (∃ ys : List ℚ, ys.length = rows.length ∧
      allCmds (renderElement wrap sizes colors s (.table rows hasHeader)) =
        allCmds s ++ tableCmds wrap sizes colors hasHeader (maxCellCount rows)
          ((maxWidth - 2 * 2) / ((maxCellCount rows : Nat) : ℚ))
          (sizes.base * (2 / 5) * sizes.lineHeight + 2 * 2) 0 rows ys ∧
      ((tableCmds wrap sizes colors hasHeader (maxCellCount rows)
          ((maxWidth - 2 * 2) / ((maxCellCount rows : Nat) : ℚ))
          (sizes.base * (2 / 5) * sizes.lineHeight + 2 * 2) 0 rows ys).filter
        isStrokeRect).length = rows.length * maxCellCount rows ∧
      (∀ c ∈ tableCmds wrap sizes colors hasHeader (maxCellCount rows)
          ((maxWidth - 2 * 2) / ((maxCellCount rows : Nat) : ℚ))
          (sizes.base * (2 / 5) * sizes.lineHeight + 2 * 2) 0 rows ys,
        strokeDims ((maxWidth - 2 * 2) / ((maxCellCount rows : Nat) : ℚ))
          (sizes.base * (2 / 5) * sizes.lineHeight + 2 * 2) c = true ∧
        textAtMostOneLine c = true) ∧
      ((tableCmds wrap sizes colors hasHeader (maxCellCount rows)
          ((maxWidth - 2 * 2) / ((maxCellCount rows : Nat) : ℚ))
          (sizes.base * (2 / 5) * sizes.lineHeight + 2 * 2) 0 rows ys).filter
        isFillRect).length = (if hasHeader then 1 else 0)) := by
  refine ⟨fun r hr => (maxCellCount_ge rows 0).2 r hr, ?_, ?_⟩
  · rcases maxCellCount_attained rows 0 with h0 | hat
    · obtain ⟨r0, rest, rfl⟩ : ∃ r0 rest, rows = r0 :: rest := by
        cases rows with
        | nil => exact absurd rfl hrows
        | cons a l => exact ⟨a, l, rfl⟩
      refine ⟨r0, List.mem_cons_self r0 rest, ?_⟩
      have hle := (maxCellCount_ge (r0 :: rest) 0).2 r0 (List.mem_cons_self r0 rest)
      unfold maxCellCount
      omega
    · obtain ⟨r, hr, hlen⟩ := hat
      exact ⟨r, hr, hlen.symm⟩
  · have hne : ¬(rows.length = 0) := fun h => hrows (List.length_eq_zero.mp h)
    obtain ⟨ys, hlen, hcmds⟩ := renderTableRows_allCmds wrap sizes colors hasHeader
      (maxCellCount rows) ((maxWidth - 2 * 2) / ((maxCellCount rows : Nat) : ℚ))
      (sizes.base * (2 / 5) * sizes.lineHeight + 2 * 2) rows 0 s
    refine ⟨ys, hlen, ?_, tableCmds_strokeCount wrap sizes colors hasHeader
        (maxCellCount rows) _ _ rows ys 0 hlen,
      fun c hc => tableCmds_all wrap sizes colors hasHeader (maxCellCount rows)
        _ _ rows ys 0 c hc, ?_⟩
    · rw [show renderElement wrap sizes colors s (.table rows hasHeader) =
        { renderTableRows wrap sizes colors hasHeader (maxCellCount rows)
            ((maxWidth - 2 * 2) / ((maxCellCount rows : Nat) : ℚ))
            (sizes.base * (2 / 5) * sizes.lineHeight + 2 * 2) 0 s rows with
          y := (renderTableRows wrap sizes colors hasHeader (maxCellCount rows)
            ((maxWidth - 2 * 2) / ((maxCellCount rows : Nat) : ℚ))
            (sizes.base * (2 / 5) * sizes.lineHeight + 2 * 2) 0 s rows).y + 3 } from by
        simp only [renderElement, if_neg hne]]
      exact hcmds
    · rw [tableCmds_fillCount]
      have hys : ys ≠ [] := by
        intro h
        rw [h] at hlen
        exact hne hlen.symm
      simp [hrows, hys]

/-- Witness for C7 at the spec scenario table `[["A","B"],["1","2"]]` with
a header row, medium tier, dark theme. -/
theorem table_rendering_spec_witness :
    (∀ r ∈ [["A", "B"], ["1", "2"]], r.length ≤ maxCellCount [["A", "B"], ["1", "2"]]) ∧
    (∃ r ∈ [["A", "B"], ["1", "2"]], r.length = maxCellCount [["A", "B"], ["1", "2"]]) ∧
    (∃ ys : List ℚ, ys.length = ([["A", "B"], ["1", "2"]] : List (List String)).length ∧
      allCmds (renderElement wrapOneLine mediumSizes darkDerived initState
          (.table [["A", "B"], ["1", "2"]] true)) =
        allCmds initState ++ tableCmds wrapOneLine mediumSizes darkDerived true
          (maxCellCount [["A", "B"], ["1", "2"]])
          ((maxWidth - 2 * 2) / ((maxCellCount [["A", "B"], ["1", "2"]] : Nat) : ℚ))
          (mediumSizes.base * (2 / 5) * mediumSizes.lineHeight + 2 * 2) 0
          [["A", "B"], ["1", "2"]] ys ∧
      ((tableCmds wrapOneLine mediumSizes darkDerived true
          (maxCellCount [["A", "B"], ["1", "2"]])
          ((maxWidth - 2 * 2) / ((maxCellCount [["A", "B"], ["1", "2"]] : Nat) : ℚ))
          (mediumSizes.base * (2 / 5) * mediumSizes.lineHeight + 2 * 2) 0
          [["A", "B"], ["1", "2"]] ys).filter isStrokeRect).length =
        ([["A", "B"], ["1", "2"]] : List (List String)).length *
          maxCellCount [["A", "B"], ["1", "2"]] ∧
      (∀ c ∈ tableCmds wrapOneLine mediumSizes darkDerived true
          (maxCellCount [["A", "B"], ["1", "2"]])
          ((maxWidth - 2 * 2) / ((maxCellCount [["A", "B"], ["1", "2"]] : Nat) : ℚ))
          (mediumSizes.base * (2 / 5) * mediumSizes.lineHeight + 2 * 2) 0
          [["A", "B"], ["1", "2"]] ys,
        strokeDims ((maxWidth - 2 * 2) /
            ((maxCellCount [["A", "B"], ["1", "2"]] : Nat) : ℚ))
          (mediumSizes.base * (2 / 5) * mediumSizes.lineHeight + 2 * 2) c = true ∧
        textAtMostOneLine c = true) ∧
      ((tableCmds wrapOneLine mediumSizes darkDerived true
          (maxCellCount [["A", "B"], ["1", "2"]])
          ((maxWidth - 2 * 2) / ((maxCellCount [["A", "B"], ["1", "2"]] : Nat) : ℚ))
          (mediumSizes.base * (2 / 5) * mediumSizes.lineHeight + 2 * 2) 0
          [["A", "B"], ["1", "2"]] ys).filter isFillRect).length =
        (if true then 1 else 0)) :=
  table_rendering_spec wrapOneLine mediumSizes darkDerived [["A", "B"], ["1", "2"]]
    true initState (by decide)

/-! ### C4: the split policy for paragraphs and code blocks -/

/-- The commands of a page-split code block, line by line; `ys` lists the
per-line vertical offsets: a fresh one-line background rectangle, then the
(re-wrapped) line. -/
def codeSplitCmds (wrap : WrapFn) (sizes : PdfSizes) (lineH : ℚ) :
    List String → List ℚ → List DrawCmd
  | [], _ => []
  | _ :: _, [] => []
  | l :: rest, yr :: ys =>
      DrawCmd.fillRect margin (yr - 2) maxWidth (lineH + 2) ⟨245, 245, 245⟩
        :: DrawCmd.text (wrap (jsOr l " ") (maxWidth - 6) sizes.code) (margin + 3) yr
            sizes.code "courier" "normal" ⟨60, 60, 60⟩
        :: codeSplitCmds wrap sizes lineH rest ys

/-- The one-page code-block line loop only appends to the current page. -/
theorem placeCodeFixed_samePage (wrap : WrapFn) (sizes : PdfSizes) (lineH : ℚ) :
    ∀ (lines : List String) (codeY : ℚ) (s0 s : LayoutState), SamePage s0 s →
      SamePage s0 (placeCodeFixed wrap sizes lineH codeY s lines) := by
  intro lines
  induction lines with
  | nil => intro codeY s0 s h; simpa [placeCodeFixed] using h
  | cons l rest ih =>
      intro codeY s0 s h
      rw [placeCodeFixed]
      exact ih _ s0 _ (samePage_emit _ _ _ h)

/-- The one-page code-block line loop emits only text commands. -/
theorem placeCodeFixed_allCmds (wrap : WrapFn) (sizes : PdfSizes) (lineH : ℚ) :
    ∀ (lines : List String) (codeY : ℚ) (s : LayoutState),
      ∃ tcmds : List DrawCmd, tcmds.all isTextCmd = true ∧
        allCmds (placeCodeFixed wrap sizes lineH codeY s lines) = allCmds s ++ tcmds := by
  intro lines
  induction lines with
  | nil => intro codeY s; exact ⟨[], rfl, by simp [placeCodeFixed]⟩
  | cons l rest ih =>
      intro codeY s
      rw [placeCodeFixed]
      obtain ⟨tcmds, hall, hcmds⟩ := ih _ _
      refine ⟨DrawCmd.text (wrap (jsOr l " ") (maxWidth - 6) sizes.code) (margin + 3)
        codeY sizes.code "courier" "normal" ⟨60, 60, 60⟩ :: tcmds, ?_, ?_⟩
      · simp [hall, isTextCmd]
      · rw [hcmds, allCmds_emit]
        simp

/-- The page-split code-block loop paints exactly `codeSplitCmds`. -/
theorem placeCodeSplit_allCmds (wrap : WrapFn) (sizes : PdfSizes) (lineH : ℚ) :
    ∀ (lines : List String) (s : LayoutState), ∃ ys : List ℚ,
      ys.length = lines.length ∧
      allCmds (placeCodeSplit wrap sizes lineH s lines) =
        allCmds s ++ codeSplitCmds wrap sizes lineH lines ys := by
  intro lines
  induction lines with
  | nil => intro s; exact ⟨[], rfl, by simp [placeCodeSplit, codeSplitCmds]⟩
  | cons l rest ih =>
      intro s
      rw [placeCodeSplit]
      obtain ⟨ys, hlen, hcmds⟩ := ih _
      refine ⟨(checkPageBreak s (lineH + 4)).y :: ys, by simp [hlen], ?_⟩
      rw [hcmds, codeSplitCmds]
      simp only [allCmds_reY, allCmds_emit, allCmds_checkPageBreak, emit_y]
      simp

/-- A page-split code block paints one fresh background rectangle per
source line. -/
theorem codeSplitCmds_fillCount (wrap : WrapFn) (sizes : PdfSizes) (lineH : ℚ) :
    ∀ (lines : List String) (ys : List ℚ), ys.length = lines.length →
      ((codeSplitCmds wrap sizes lineH lines ys).filter isFillRect).length =
        lines.length := by
  intro lines
  induction lines with
  | nil => intro ys h; simp [codeSplitCmds]
  | cons l rest ih =>
      intro ys h
      cases ys with
      | nil => simp at h
      | cons yr ys2 =>
          rw [codeSplitCmds]
          simp [isFillRect, ih ys2 (by simpa using h)]

/-- The paragraph loop places each wrapped line whole, after a per-line fit
check: when one line fits a fresh page at all, every placed line starts at
or below the top margin and ends above the footer band. -/
theorem placeParaLines_fit (sizes : PdfSizes) (colors : DerivedColors) (lineH : ℚ)
    (h0 : 0 ≤ lineH) (hsmall : margin + lineH ≤ pageHeight - margin - footerHeight) :
    ∀ (lines : List String) (s : LayoutState), margin ≤ s.y →
      ∃ ys : List ℚ, ys.length = lines.length ∧
        allCmds (placeParaLines sizes colors lineH s lines) =
          allCmds s ++ List.zipWith (fun l y => DrawCmd.text [l] margin y sizes.base
            "helvetica" "normal" colors.textRgb) lines ys ∧
        ∀ y ∈ ys, margin ≤ y ∧ y + lineH ≤ pageHeight - margin - footerHeight := by
  intro lines
  induction lines with
  | nil => intro s hs; exact ⟨[], rfl, by simp [placeParaLines], by simp⟩
  | cons l rest ih =>
      intro s hs
      have hy0 : margin ≤ (checkPageBreak s lineH).y ∧
          (checkPageBreak s lineH).y + lineH ≤ pageHeight - margin - footerHeight := by
        unfold checkPageBreak
        split
        · exact ⟨le_refl margin, hsmall⟩
        · next hcond => exact ⟨hs, by linarith [not_lt.mp hcond]⟩
      rw [placeParaLines]
      set s1 := checkPageBreak s lineH with hs1
      set s2 := emit s1 (DrawCmd.text [l] margin s1.y sizes.base "helvetica" "normal"
        colors.textRgb) with hs2
      obtain ⟨ys, hlen, hcmds, hfit⟩ := ih { s2 with y := s2.y + lineH } (by
        show margin ≤ s2.y + lineH
        have h2 : s2.y = s1.y := rfl
        have h1 := hy0.1
        rw [h2]
        linarith)
      refine ⟨s1.y :: ys, by simp [hlen], ?_, ?_⟩
      · rw [hcmds]
        have e2 : allCmds { s2 with y := s2.y + lineH } =
            allCmds s ++ [DrawCmd.text [l] margin s1.y sizes.base "helvetica" "normal"
              colors.textRgb] := by
          rw [show allCmds { s2 with y := s2.y + lineH } = allCmds s2 from rfl, hs2,
            allCmds_emit, hs1, allCmds_checkPageBreak]
        rw [e2]
        simp
      · intro y hy
        rcases List.mem_cons.mp hy with rfl | hy2
        · exact hy0
        · exact hfit y hy2

/-- A text of `n` single-character lines. -/
def lineText (n : Nat) : String := ⟨List.intercalate ['\n'] (List.replicate n ['a'])⟩

/-- A code block of 60 one-character lines (taller than one page at the
medium tier, which fits 59 such lines). -/
def pre60Tree : List HNode := [HNode.element "pre" [HNode.text (lineText 60)]]

/-- Counterexample to C4: a page-split code block does not redraw one
background rectangle scoped to each page's line subset — it draws one per
line: the first page of a split 60-line block carries 59 filled rectangles,
not 1. -/
theorem codeblock_bg_per_line_counterexample :
    ((okPages (exportToPDF wrapOneLine "June 1, 2025" "t" pre60Tree "dark"
      "medium")).map (fun p => (p.filter isFillRect).length)) = [59, 1] := by
  decide

/-- C4 as amended: a code block whose full height fits one page's content
area is atomic — a single page-break check precedes it, it never spans two
pages, and its only background is one rounded rectangle sized to the whole
block; a code block taller than a full page is placed line by line,
breaking between source lines, with a fresh background rectangle behind
each individual line (one per line, not one per page subset); a paragraph
is placed line by line with a per-line fit check, so every placed line lies
whole between the top margin and the footer band; a 60-line one-character
code block at the medium tier spreads over 2 pages. -/
theorem codeblock_split_amended (wrap : WrapFn) (sizes : PdfSizes)
    (colors : DerivedColors) (t : String) (s : LayoutState) :
    (¬((((jsSplitNewline t).length : Nat) : ℚ) * (sizes.code * (2 / 5)) + 6 >
        pageHeight - margin * 2 - footerHeight) →
      extendsOnePage s (renderElement wrap sizes colors s (.pre t)) ∧
      ∃ tcmds : List DrawCmd, tcmds.all isTextCmd = true ∧
        allCmds (renderElement wrap sizes colors s (.pre t)) =
          allCmds s ++ DrawCmd.fillRoundedRect margin
            ((checkPageBreak s ((((jsSplitNewline t).length : Nat) : ℚ) *
              (sizes.code * (2 / 5)) + 6)).y - 2)
            maxWidth ((((jsSplitNewline t).length : Nat) : ℚ) * (sizes.code * (2 / 5)) + 6)
            2 2 ⟨245, 245, 245⟩ :: tcmds) ∧
    ((((jsSplitNewline t).length : Nat) : ℚ) * (sizes.code * (2 / 5)) + 6 >
        pageHeight - margin * 2 - footerHeight →
      ∃ ys : List ℚ, ys.length = (jsSplitNewline t).length ∧
        allCmds (renderElement wrap sizes colors s (.pre t)) =
          allCmds s ++ codeSplitCmds wrap sizes (sizes.code * (2 / 5))
            (jsSplitNewline t) ys ∧
        ((codeSplitCmds wrap sizes (sizes.code * (2 / 5)) (jsSplitNewline t) ys).filter
          isFillRect).length = (jsSplitNewline t).length) ∧
    (∀ lineH : ℚ, 0 ≤ lineH → margin + lineH ≤ pageHeight - margin - footerHeight →
      ∀ (lines : List String), margin ≤ s.y →
        ∃ ys : List ℚ, ys.length = lines.length ∧
          allCmds (placeParaLines sizes colors lineH s lines) =
            allCmds s ++ List.zipWith (fun l y => DrawCmd.text [l] margin y sizes.base
              "helvetica" "normal" colors.textRgb) lines ys ∧
          ∀ y ∈ ys, margin ≤ y ∧ y + lineH ≤ pageHeight - margin - footerHeight) ∧
    (okPages (exportToPDF wrapOneLine "June 1, 2025" "t" pre60Tree "dark"
      "medium")).length = 2 := by
  refine ⟨fun hfits => ?_, fun hbig => ?_,
    fun lineH h0 hsmall lines hs => placeParaLines_fit sizes colors lineH h0 hsmall
      lines s hs, by decide⟩
  · constructor
    · simp only [renderElement, if_neg hfits]
      refine extendsOnePage_of_samePage s ((((jsSplitNewline t).length : Nat) : ℚ) *
        (sizes.code * (2 / 5)) + 6) _ (samePage_setY _ _ _ ?_)
      exact placeCodeFixed_samePage wrap sizes _ _ _ _ _
        (samePage_emit _ _ _ (samePage_refl _))
    · simp only [renderElement, if_neg hfits]
      obtain ⟨tcmds, hall, hcmds⟩ := placeCodeFixed_allCmds wrap sizes
        (sizes.code * (2 / 5)) (jsSplitNewline t)
        ((checkPageBreak s ((((jsSplitNewline t).length : Nat) : ℚ) *
          (sizes.code * (2 / 5)) + 6)).y + 2)
        (emit (checkPageBreak s ((((jsSplitNewline t).length : Nat) : ℚ) *
            (sizes.code * (2 / 5)) + 6))
          (DrawCmd.fillRoundedRect margin
            ((checkPageBreak s ((((jsSplitNewline t).length : Nat) : ℚ) *
              (sizes.code * (2 / 5)) + 6)).y - 2)
            maxWidth ((((jsSplitNewline t).length : Nat) : ℚ) * (sizes.code * (2 / 5)) + 6)
            2 2 ⟨245, 245, 245⟩))
      refine ⟨tcmds, hall, ?_⟩
      rw [allCmds_reY, hcmds, allCmds_emit, allCmds_checkPageBreak]
      simp
  · simp only [renderElement, if_pos hbig]
    obtain ⟨ys, hlen, hcmds⟩ := placeCodeSplit_allCmds wrap sizes
      (sizes.code * (2 / 5)) (jsSplitNewline t) s
    exact ⟨ys, hlen, by rw [allCmds_reY, hcmds],
      codeSplitCmds_fillCount wrap sizes _ _ ys hlen⟩

/-- Witness for C4 at a concrete two-line code block (atomic branch). -/
theorem codeblock_split_amended_witness :
    extendsOnePage initState (renderElement wrapOneLine mediumSizes darkDerived
      initState (.pre "a\nb")) ∧
    ∃ tcmds : List DrawCmd, tcmds.all isTextCmd = true ∧
      allCmds (renderElement wrapOneLine mediumSizes darkDerived initState
          (.pre "a\nb")) =
        allCmds initState ++ DrawCmd.fillRoundedRect margin
          ((checkPageBreak initState ((((jsSplitNewline "a\nb").length : Nat) : ℚ) *
            (mediumSizes.code * (2 / 5)) + 6)).y - 2)
          maxWidth ((((jsSplitNewline "a\nb").length : Nat) : ℚ) *
            (mediumSizes.code * (2 / 5)) + 6)
          2 2 ⟨245, 245, 245⟩ :: tcmds :=
  (codeblock_split_amended wrapOneLine mediumSizes darkDerived "a\nb" initState).1
    (by decide)

end MarkLite
